import Mathlib

/-!
A verification development for the SimpleBot chat-bot (files `src/action.rs`,
`src/builtins.rs`, `src/main.rs`), built as a shallow embedding in Lean.

Modelling conventions:
* Rust `Vec` becomes `List`; machine integers (`usize`) become `Nat`
  (the sizes involved are never near overflow; the one place a `usize`
  subtraction could underflow is itself a verified claim).
* The external `regex` crate appears in two forms: matching of arbitrary
  patterns is an oracle parameter (`RegexEnv`), while the fragment of
  regex syntax actually produced from literal `contains` triggers
  (escaped characters and the word-boundary anchor) gets a faithful
  executable semantics further below.
* Subprocess execution (`std::process::Command`) is an oracle parameter
  (`ProcEnv`) giving the outcome of running a `command`/`shell` reaction;
  the mapping from that outcome to the engine's `Option<String>` is
  embedded from the source.
* Rust `std::str::from_utf8` is embedded as an executable UTF-8 decoder
  over byte lists.
* Character classification (`char::is_alphabetic`, the regex crate's `\b`
  word charactes) is modelled on the ASCII range via `Char.isAlpha` /
  alphanumeric-or-underscore; all concrete strings in the program and in
  the claims are ASCII.
-/

set_option maxRecDepth 8192

namespace SimpleBot

/-- Chat target of an incoming message (tsclientlib `MessageTarget`). -/
inductive MessageTarget where
  | server
  | channel
  | client (id : Nat)
  | poke (id : Nat)
deriving Repr, DecidableEq

/-- tsclientlib `TextMessageTargetMode`. -/
inductive TextMessageTargetMode where
  | server
  | channel
  | client
  | unknown
deriving Repr, DecidableEq

/-- Sender of a message (tsclientlib `InvokerRef`): display name and
optional persistent uid (a byte string). -/
structure Invoker where
  name : String
  uid : Option (List Nat)
deriving Repr, DecidableEq

/-- A normalized incoming message (struct `Message`, src/main.rs:142-148;
the field `target` follows the revision used by src/action.rs, which
matches on `msg.target`). -/
structure Message where
  target : MessageTarget
  invoker : Invoker
  message : String
deriving Repr, DecidableEq

/-- Serializable rule definition (struct `ActionDefinition`,
src/action.rs:14-33). -/
structure ActionDefinition where
  contains : Option String := none
  regex : Option String := none
  chat : Option String := none
  response : Option String := none
  command : Option String := none
  shell : Option String := none
deriving Repr, DecidableEq

/-- One matcher (enum `Matcher`, src/action.rs:46-51). A compiled
`Regex` is represented by its pattern string; matching arbitrary patterns
is delegated to a `RegexEnv` oracle. -/
inductive Matcher where
  | regex (pattern : String)
  | mode (m : Option TextMessageTargetMode)
deriving Repr, DecidableEq

/-- One reaction (enum `Reaction`, src/action.rs:58-63). The `function`
variant carries the callback's observable behavior on a message. -/
inductive Reaction where
  | plain (s : String)
  | command (s : String)
  | shell (s : String)
  | function (f : Message → Option String)

/-- One rule (struct `Action`, src/action.rs:38-44). -/
structure Action where
  matchers : List Matcher := []
  reaction : Option Reaction := none

/-- `ActionList` (src/action.rs:35-36) is a vector of actions. -/
abbrev ActionList := List Action

/-- Oracle for the regex crate's `Regex::is_match`: pattern, then
haystack. -/
abbrev RegexEnv := String → String → Bool

/-- Embeds `Matcher::matches` (src/action.rs:151-188). -/
def Matcher.matches (re : RegexEnv) (msg : Message) : Matcher → Bool
  | .regex pat => re pat msg.message
  | .mode m =>
    match m with
    | some .server => match msg.target with | .server => true | _ => false
    | some .channel => match msg.target with | .channel => true | _ => false
    | some .client => match msg.target with | .client _ => true | _ => false
    | some .unknown => false
    | none => match msg.target with | .poke _ => true | _ => false

/-- Outcome of running a subprocess: it either fails to spawn
(`cmd.output()` returns `Err`) or runs to completion with an exit status
and captured standard output (a byte list). -/
inductive ProcResult where
  | spawnErr
  | ran (success : Bool) (stdout : List Nat)
deriving Repr, DecidableEq

/-- Oracle for subprocess execution. Its arguments determine the spawned
invocation exactly as src/action.rs:222-273 builds it: the flag says
whether the `shell` path is taken (program `sh -c s` plus context
arguments) or the `command` path (the string split on spaces, plus the
same context arguments: target label, message text, invoker name, and
the base64 uid when present). Since the full argv is a function of these
three arguments, the oracle consumes them directly. -/
abbrev ProcEnv := Bool → String → Message → ProcResult

/-- Whether a byte is a UTF-8 continuation byte. -/
def utf8Cont (b : Nat) : Bool := 0x80 ≤ b && b ≤ 0xBF

/-- Embeds Rust `std::str::from_utf8`: strict UTF-8 decoding of a byte
list (rejecting overlong forms, surrogates and out-of-range values),
returning the decoded characters or `none`. -/
def utf8Decode : List Nat → Option (List Char)
  | [] => some []
  | b :: r =>
    if b ≤ 0x7F then
      (utf8Decode r).map (fun cs => Char.ofNat b :: cs)
    else if 0xC2 ≤ b && b ≤ 0xDF then
      match r with
      | b1 :: r1 =>
        if utf8Cont b1 then
          (utf8Decode r1).map
            (fun cs => Char.ofNat ((b - 0xC0) * 0x40 + (b1 - 0x80)) :: cs)
        else none
      | [] => none
    else if (0xE0 ≤ b && b ≤ 0xEF) then
      match r with
      | b1 :: b2 :: r2 =>
        let lo1 := if b = 0xE0 then 0xA0 else 0x80
        let hi1 := if b = 0xED then 0x9F else 0xBF
        if (lo1 ≤ b1 && b1 ≤ hi1) && utf8Cont b2 then
          (utf8Decode r2).map
            (fun cs =>
              Char.ofNat ((b - 0xE0) * 0x1000 + (b1 - 0x80) * 0x40 + (b2 - 0x80)) :: cs)
        else none
      | _ => none
    else if (0xF0 ≤ b && b ≤ 0xF4) then
      match r with
      | b1 :: b2 :: b3 :: r3 =>
        let lo1 := if b = 0xF0 then 0x90 else 0x80
        let hi1 := if b = 0xF4 then 0x8F else 0xBF
        if (lo1 ≤ b1 && b1 ≤ hi1) && (utf8Cont b2 && utf8Cont b3) then
          (utf8Decode r3).map
            (fun cs =>
              Char.ofNat ((b - 0xF0) * 0x40000 + (b1 - 0x80) * 0x1000 +
                (b2 - 0x80) * 0x40 + (b3 - 0x80)) :: cs)
        else none
      | _ => none
    else none

/-- Embeds the output handling shared by the `Command` and `Shell` arms of
`Reaction::execute` (src/action.rs:275-301): a spawn/execute failure is
logged and yields `Some("")`; a non-zero exit status yields `None`; a zero
exit status with stdout that is not valid UTF-8 yields `Some("")`;
otherwise the decoded stdout is returned. -/
def runOutput (pr : ProcResult) : Option String :=
  match pr with
  | .spawnErr => some ""
  | .ran success stdout =>
    if !success then none
    else
      match utf8Decode stdout with
      | none => some ""
      | some cs => some (String.mk cs)

/-- Embeds `Reaction::execute` (src/action.rs:213-305). -/
def Reaction.execute (env : ProcEnv) (msg : Message) : Reaction → Option String
  | .plain s => some s
  | .command s => runOutput (env false s msg)
  | .shell s => runOutput (env true s msg)
  | .function f => f msg

/-- All matchers of a rule hold for the message: the inner `for m in
&a.matchers` loop of `ActionList::handle` (src/action.rs:317-321). -/
def ruleMatches (re : RegexEnv) (msg : Message) (a : Action) : Bool :=
  a.matchers.all (fun m => m.matches re msg)

/-- Embeds `ActionList::handle` (src/action.rs:308-337). -/
def ActionList.handle (re : RegexEnv) (env : ProcEnv) (msg : Message) :
    ActionList → Option String
  | [] => none
  | a :: rest =>
    if ruleMatches re msg a then
      match a.reaction with
      | some r =>
        match r.execute env msg with
        | some res => if res = "" then none else some res
        | none => ActionList.handle re env msg rest
      | none => none
    else ActionList.handle re env msg rest

/-- The evaluation loop passes over this rule and continues: either some
matcher fails, or the rule's reaction runs and returns `None`
(inconclusive). -/
def ruleSkips (re : RegexEnv) (env : ProcEnv) (msg : Message) (a : Action) : Prop :=
  ruleMatches re msg a = false ∨
    ∃ r, a.reaction = some r ∧ r.execute env msg = none

/-- This rule ends evaluation with the non-empty reply `s`: its matchers
all hold and its reaction yields `Some s` with `s` non-empty. -/
def ruleConcludes (re : RegexEnv) (env : ProcEnv) (msg : Message) (s : String)
    (a : Action) : Prop :=
  ruleMatches re msg a = true ∧
    ∃ r, a.reaction = some r ∧ r.execute env msg = some s ∧ s ≠ ""

theorem handle_cons_no_match {re : RegexEnv} {env : ProcEnv} {msg : Message}
    {a : Action} (rest : ActionList) (hm : ruleMatches re msg a = false) :
    ActionList.handle re env msg (a :: rest) = ActionList.handle re env msg rest := by
  simp [ActionList.handle, hm]

theorem handle_cons_no_reaction {re : RegexEnv} {env : ProcEnv} {msg : Message}
    {a : Action} (rest : ActionList) (hm : ruleMatches re msg a = true)
    (hr : a.reaction = none) :
    ActionList.handle re env msg (a :: rest) = none := by
  simp [ActionList.handle, hm, hr]

theorem handle_cons_inconclusive {re : RegexEnv} {env : ProcEnv} {msg : Message}
    {a : Action} {r : Reaction} (rest : ActionList)
    (hm : ruleMatches re msg a = true) (hr : a.reaction = some r)
    (he : r.execute env msg = none) :
    ActionList.handle re env msg (a :: rest) = ActionList.handle re env msg rest := by
  simp [ActionList.handle, hm, hr, he]

theorem handle_cons_empty {re : RegexEnv} {env : ProcEnv} {msg : Message}
    {a : Action} {r : Reaction} (rest : ActionList)
    (hm : ruleMatches re msg a = true) (hr : a.reaction = some r)
    (he : r.execute env msg = some "") :
    ActionList.handle re env msg (a :: rest) = none := by
  simp [ActionList.handle, hm, hr, he]

theorem handle_cons_reply {re : RegexEnv} {env : ProcEnv} {msg : Message}
    {a : Action} {r : Reaction} {res : String} (rest : ActionList)
    (hm : ruleMatches re msg a = true) (hr : a.reaction = some r)
    (he : r.execute env msg = some res) (hne : res ≠ "") :
    ActionList.handle re env msg (a :: rest) = some res := by
  simp [ActionList.handle, hm, hr, he, hne]

@[simp]
theorem getConsZero {α : Type} (a : α) (l : List α) (h : 0 < (a :: l).length) :
    (a :: l).get ⟨0, h⟩ = a := rfl

@[simp]
theorem getConsSucc {α : Type} (a : α) (l : List α) (i : Nat)
    (h : i + 1 < (a :: l).length) :
    (a :: l).get ⟨i + 1, h⟩ = l.get ⟨i, Nat.lt_of_succ_lt_succ h⟩ := rfl

theorem handle_eq_some_iff (re : RegexEnv) (env : ProcEnv) (msg : Message)
    (rules : ActionList) (s : String) :
    ActionList.handle re env msg rules = some s ↔
      ∃ (i : Nat) (h : i < rules.length),
        ruleConcludes re env msg s (rules.get ⟨i, h⟩) ∧
        ∀ (j : Nat) (hj : j < i),
          ruleSkips re env msg (rules.get ⟨j, Nat.lt_trans hj h⟩) := by
  induction rules with
  | nil => simp [ActionList.handle]
  | cons a rest ih =>
    by_cases hm : ruleMatches re msg a = true
    · cases hr : a.reaction with
      | none =>
        rw [handle_cons_no_reaction rest hm hr]
        constructor
        · intro h; exact absurd h (by simp)
        · rintro ⟨i, h, hc, hsk⟩
          match i, h with
          | 0, h =>
            obtain ⟨r, hrr, -⟩ := hc.2
            simp only [getConsZero] at hrr
            simp [hr] at hrr
          | j + 1, h =>
            have := hsk 0 (Nat.succ_pos j)
            simp only [getConsZero] at this
            rcases this with h1 | ⟨r, hrr, -⟩
            · simp [hm] at h1
            · simp [hr] at hrr
      | some r =>
        cases he : r.execute env msg with
        | none =>
          rw [handle_cons_inconclusive rest hm hr he, ih]
          constructor
          · rintro ⟨i, h, hc, hsk⟩
            refine ⟨i + 1, Nat.succ_lt_succ h, ?_, ?_⟩
            · simpa using hc
            · intro j hj
              match j, hj with
              | 0, hj =>
                simp only [getConsZero]
                exact Or.inr ⟨r, hr, he⟩
              | k + 1, hj =>
                have := hsk k (Nat.lt_of_succ_lt_succ hj)
                simpa using this
          · rintro ⟨i, h, hc, hsk⟩
            match i, h with
            | 0, h =>
              exfalso
              obtain ⟨r', hrr, he', -⟩ := hc.2
              simp only [getConsZero] at hrr; rw [hr] at hrr
              obtain rfl : r = r' := by injection hrr
              rw [he] at he'
              exact absurd he' (by simp)
            | j + 1, h =>
              refine ⟨j, Nat.lt_of_succ_lt_succ h, ?_, ?_⟩
              · simpa using hc
              · intro k hk
                have := hsk (k + 1) (Nat.succ_lt_succ hk)
                simpa using this
        | some res =>
          by_cases hres : res = ""
          · subst hres
            rw [handle_cons_empty rest hm hr he]
            constructor
            · intro h; exact absurd h (by simp)
            · rintro ⟨i, h, hc, hsk⟩
              match i, h with
              | 0, h =>
                obtain ⟨r', hrr, he', hne⟩ := hc.2
                simp only [getConsZero] at hrr; rw [hr] at hrr
                obtain rfl : r = r' := by injection hrr
                rw [he] at he'
                exact absurd (by injection he'.symm) hne
              | j + 1, h =>
                have := hsk 0 (Nat.succ_pos j)
                simp only [getConsZero] at this
                rcases this with h1 | ⟨r', hrr, he'⟩
                · simp [hm] at h1
                · rw [hr] at hrr
                  obtain rfl : r = r' := by injection hrr
                  rw [he] at he'
                  exact absurd he' (by simp)
          · rw [handle_cons_reply rest hm hr he hres]
            constructor
            · intro h
              obtain rfl : res = s := by injection h
              exact ⟨0, Nat.succ_pos _, by
                refine ⟨by simpa using hm, r, by simpa using hr, he, hres⟩,
                fun j hj => absurd hj (Nat.not_lt_zero j)⟩
            · rintro ⟨i, h, hc, hsk⟩
              match i, h with
              | 0, h =>
                obtain ⟨r', hrr, he', -⟩ := hc.2
                simp only [getConsZero] at hrr; rw [hr] at hrr
                obtain rfl : r = r' := by injection hrr
                rw [he] at he'
                obtain rfl : res = s := by injection he'
                rfl
              | j + 1, h =>
                exfalso
                have := hsk 0 (Nat.succ_pos j)
                simp only [getConsZero] at this
                rcases this with h1 | ⟨r', hrr, he'⟩
                · simp [hm] at h1
                · rw [hr] at hrr
                  obtain rfl : r = r' := by injection hrr
                  rw [he] at he'
                  exact absurd he' (by simp)
    · have hm' : ruleMatches re msg a = false := by
        revert hm; cases ruleMatches re msg a <;> simp
      rw [handle_cons_no_match rest hm', ih]
      constructor
      · rintro ⟨i, h, hc, hsk⟩
        refine ⟨i + 1, Nat.succ_lt_succ h, by simpa using hc, ?_⟩
        intro j hj
        match j, hj with
        | 0, hj => simp only [getConsZero]; exact Or.inl hm'
        | k + 1, hj =>
          have := hsk k (Nat.lt_of_succ_lt_succ hj)
          simpa using this
      · rintro ⟨i, h, hc, hsk⟩
        match i, h with
        | 0, h =>
          exfalso
          have := hc.1
          simp only [getConsZero] at this
          exact hm this
        | j + 1, h =>
          refine ⟨j, Nat.lt_of_succ_lt_succ h, by simpa using hc, ?_⟩
          intro k hk
          have := hsk (k + 1) (Nat.succ_lt_succ hk)
          simpa using this

/-- C1: for every rule set, session state (matching and subprocess
oracles) and message, `ActionList::handle` returns `some s` exactly when
the first rule (in list order) that settles evaluation does so with the
non-empty reply `s`, every earlier rule being passed over (matcher
failure, or an inconclusive `None` reaction); and a rule whose matchers
hold but that has no reaction short-circuits evaluation to `None`, even
if later rules would match. Together with `Option` totality this covers
all the claim's cases: `Some("")` and absent reactions yield `None`,
inconclusive reactions continue, no conclusive rule yields `None`, and
rules after the first conclusive one never influence the result. -/
theorem handle_first_match_wins (re : RegexEnv) (env : ProcEnv) (msg : Message)
    (rules : ActionList) (s : String) :
    (ActionList.handle re env msg rules = some s ↔
      ∃ (i : Nat) (h : i < rules.length),
        ruleConcludes re env msg s (rules.get ⟨i, h⟩) ∧
        ∀ (j : Nat) (hj : j < i),
          ruleSkips re env msg (rules.get ⟨j, Nat.lt_trans hj h⟩)) ∧
    (∀ (i : Nat) (h : i < rules.length),
        ruleMatches re msg (rules.get ⟨i, h⟩) = true →
        (rules.get ⟨i, h⟩).reaction = none →
        (∀ (j : Nat) (hj : j < i),
          ruleSkips re env msg (rules.get ⟨j, Nat.lt_trans hj h⟩)) →
        ActionList.handle re env msg rules = none) := by
  refine ⟨handle_eq_some_iff re env msg rules s, ?_⟩
  intro i h hm hr hsk
  cases hh : ActionList.handle re env msg rules with
  | none => rfl
  | some s' =>
    exfalso
    obtain ⟨i', h', hc, hsk'⟩ := (handle_eq_some_iff re env msg rules s').1 hh
    rcases Nat.lt_trichotomy i' i with hlt | heq | hgt
    · rcases hsk i' hlt with hbad | ⟨r1, hr1, he1⟩
      · have hbad2 : ruleMatches re msg (rules.get ⟨i', h'⟩) = false := hbad
        exact Bool.noConfusion (hc.1.symm.trans hbad2)
      · obtain ⟨r0, hr0, he0, -⟩ := hc.2
        have hr1b : (rules.get ⟨i', h'⟩).reaction = some r1 := hr1
        rw [hr1b] at hr0
        obtain rfl : r1 = r0 := by injection hr0
        rw [he1] at he0
        exact Option.noConfusion he0
    · subst heq
      obtain ⟨r0, hr0, -, -⟩ := hc.2
      have hr2 : (rules.get ⟨i', h⟩).reaction = none := hr
      rw [hr2] at hr0
      exact Option.noConfusion hr0
    · rcases hsk' i hgt with hbad | ⟨r1, hr1, he1⟩
      · have hbad2 : ruleMatches re msg (rules.get ⟨i, h⟩) = false := hbad
        exact Bool.noConfusion (hm.symm.trans hbad2)
      · have hr1b : (rules.get ⟨i, h⟩).reaction = some r1 := hr1
        rw [hr] at hr1b
        exact Option.noConfusion hr1b

/-- Witness for C1: a rule with satisfied (empty) matchers and no
reaction returns `None` even though the later rule would reply. -/
theorem handle_first_match_wins_witness :
    ActionList.handle (fun _ _ => true) (fun _ _ _ => .spawnErr)
      ⟨.server, ⟨"name", none⟩, "hi"⟩
      [⟨[], none⟩, ⟨[], some (.plain "later")⟩] = none := by
  refine (handle_first_match_wins (fun _ _ => true) (fun _ _ _ => .spawnErr)
      ⟨.server, ⟨"name", none⟩, "hi"⟩
      [⟨[], none⟩, ⟨[], some (.plain "later")⟩] "x").2 0 (by decide) rfl rfl ?_
  intro j hj
  exact absurd hj (Nat.not_lt_zero j)

/-- The reaction a `command` (`sh = false`) or `shell` (`sh = true`)
definition produces; packages the two subprocess variants for claims that
speak about both. -/
def procReaction (sh : Bool) (cmd : String) : Reaction :=
  if sh then .shell cmd else .command cmd

/-- C4: for every `Command` or `Shell` reaction, a spawn/execute failure
yields `Some("")` (and at the engine level conclusively suppresses the
reply with no fall-through to later rules); a non-zero exit yields `None`
(the engine proceeds with the next rule); a zero exit with non-UTF-8
stdout yields `Some("")`; a zero exit with decodable stdout yields the
decoded stdout. -/
theorem subprocess_outcome_semantics (re : RegexEnv) (env : ProcEnv)
    (msg : Message) (cmd : String) (sh : Bool) (out : List Nat)
    (cs : List Char) :
    ((procReaction sh cmd).execute env msg = runOutput (env sh cmd msg)) ∧
    (env sh cmd msg = .spawnErr →
      (procReaction sh cmd).execute env msg = some "") ∧
    (env sh cmd msg = .ran false out →
      (procReaction sh cmd).execute env msg = none) ∧
    (env sh cmd msg = .ran true out → utf8Decode out = none →
      (procReaction sh cmd).execute env msg = some "") ∧
    (env sh cmd msg = .ran true out → utf8Decode out = some cs →
      (procReaction sh cmd).execute env msg = some (String.mk cs)) ∧
    (∀ (a : Action) (rest : ActionList),
      ruleMatches re msg a = true →
      a.reaction = some (procReaction sh cmd) →
      (env sh cmd msg = .spawnErr →
        ActionList.handle re env msg (a :: rest) = none) ∧
      (env sh cmd msg = .ran false out →
        ActionList.handle re env msg (a :: rest) =
          ActionList.handle re env msg rest)) := by
  have hbase : (procReaction sh cmd).execute env msg = runOutput (env sh cmd msg) := by
    cases sh <;> simp [procReaction, Reaction.execute]
  refine ⟨hbase, ?_, ?_, ?_, ?_, ?_⟩
  · intro hsp; rw [hbase, hsp]; rfl
  · intro hrun; rw [hbase, hrun]; rfl
  · intro hrun hdec; rw [hbase, hrun]; simp [runOutput, hdec]
  · intro hrun hdec; rw [hbase, hrun]; simp [runOutput, hdec]
  · intro a rest hm hr
    constructor
    · intro hsp
      refine handle_cons_empty rest hm hr ?_
      rw [hbase, hsp]; rfl
    · intro hrun
      refine handle_cons_inconclusive rest hm hr ?_
      rw [hbase, hrun]; rfl

/-- Witness for C4: with a spawn-failing environment the command variant
suppresses (`Some("")`), and with a non-zero-exit environment the shell
variant is inconclusive (`None`). -/
theorem subprocess_outcome_semantics_witness :
    (procReaction false "prog a").execute (fun _ _ _ => .spawnErr)
      ⟨.server, ⟨"name", none⟩, "hi"⟩ = some "" ∧
    (procReaction true "x").execute (fun _ _ _ => .ran false [])
      ⟨.server, ⟨"name", none⟩, "hi"⟩ = none := by
  constructor
  · exact (subprocess_outcome_semantics (fun _ _ => true) (fun _ _ _ => .spawnErr)
      ⟨.server, ⟨"name", none⟩, "hi"⟩ "prog a" false [] []).2.1 rfl
  · exact (subprocess_outcome_semantics (fun _ _ => true) (fun _ _ _ => .ran false [])
      ⟨.server, ⟨"name", none⟩, "hi"⟩ "x" true [] []).2.2.1 rfl

/-- The characters `regex::escape` escapes
(`regex_syntax::is_meta_character`); braces are spelled by code point. -/
def isMetaChar (c : Char) : Bool :=
  c = '\\' || c = '.' || c = '+' || c = '*' || c = '?' || c = '(' || c = ')' ||
  c = '|' || c = '[' || c = ']' || c = Char.ofNat 0x7B || c = Char.ofNat 0x7D ||
  c = '^' || c = '$' || c = '#' || c = '&' || c = '-' || c = '~'

/-- Embeds `regex::escape`: prefix every meta character with a
backslash. -/
def escapeChars : List Char → List Char
  | [] => []
  | c :: rest =>
    if isMetaChar c then '\\' :: c :: escapeChars rest
    else c :: escapeChars rest

/-- Embeds the pattern construction for a literal `contains` trigger
(src/action.rs:89-107): escape the literal, prepend a word-boundary
anchor iff the escaped string starts with an alphabetic character, then
append one iff the current pattern ends with an alphabetic character. -/
def compiledContainsChars (t : List Char) : List Char :=
  let esc := escapeChars t
  let esc1 :=
    if (esc.head?.map Char.isAlpha).getD false then '\\' :: 'b' :: esc else esc
  if (esc1.getLast?.map Char.isAlpha).getD false then esc1 ++ ['\\', 'b'] else esc1

/-- String version of `compiledContainsChars`. -/
def compiledContains (t : String) : String :=
  String.mk (compiledContainsChars t.data)

/-- Oracle for `Regex::new`: whether the regex crate accepts a pattern. -/
abbrev CompileEnv := String → Bool

/-- The `counter` of reaction fields (src/action.rs:129-141). -/
def reactionCount (d : ActionDefinition) : Nat :=
  (if d.response.isSome then 1 else 0) + (if d.command.isSome then 1 else 0) +
    (if d.shell.isSome then 1 else 0)

/-- Reaction phase of `ActionDefinition::to_action`
(src/action.rs:128-147): each present field overwrites `res.reaction`
(response, then command, then shell) while counting; more than one is an
error. -/
def toActionReaction (d : ActionDefinition) (matchers : List Matcher) :
    Except String Action :=
  let reaction : Option Reaction :=
    match d.shell with
    | some s => some (.shell s)
    | none =>
      match d.command with
      | some c => some (.command c)
      | none => d.response.map .plain
  if reactionCount d > 1 then
    .error "Only one reaction (response, command or shell) is allowed."
  else .ok { matchers := matchers, reaction := reaction }

/-- Chat-mode phase of `ActionDefinition::to_action`
(src/action.rs:113-126). -/
def toActionChat (d : ActionDefinition) (matchers : List Matcher) :
    Except String Action :=
  match d.chat with
  | none => toActionReaction d matchers
  | some c =>
    if c = "server" then toActionReaction d (matchers ++ [.mode (some .server)])
    else if c = "channel" then toActionReaction d (matchers ++ [.mode (some .channel)])
    else if c = "client" then toActionReaction d (matchers ++ [.mode (some .client)])
    else if c = "poke" then toActionReaction d (matchers ++ [.mode none])
    else .error "Chat mode must be server, channel, client or poke."

/-- Embeds `ActionDefinition::to_action` (src/action.rs:77-148),
parameterized by the `Regex::new` oracle. -/
def ActionDefinition.to_action (compiles : CompileEnv) (d : ActionDefinition) :
    Except String Action :=
  match d.contains, d.regex with
  | some _, some _ =>
    .error "An action can only have either contains or matches."
  | some c, none =>
    if compiles (compiledContains c) then
      toActionChat d [.regex (compiledContains c)]
    else .error "invalid regex"
  | none, some m =>
    if compiles m then toActionChat d [.regex m]
    else .error "invalid regex"
  | none, none => toActionChat d []

/-- The chat field, when present, is one of the four accepted mode
names. -/
def chatOk (d : ActionDefinition) : Bool :=
  match d.chat with
  | none => true
  | some c => c = "server" || c = "channel" || c = "client" || c = "poke"

/-- The pattern handed to `Regex::new` (if any) compiles. -/
def patternOk (compiles : CompileEnv) (d : ActionDefinition) : Bool :=
  match d.contains, d.regex with
  | some c, none => compiles (compiledContains c)
  | none, some m => compiles m
  | _, _ => true

theorem toActionReaction_ok_iff (d : ActionDefinition) (ms : List Matcher) :
    (∃ a, toActionReaction d ms = .ok a) ↔ reactionCount d ≤ 1 := by
  unfold toActionReaction
  by_cases h : reactionCount d > 1
  · simp only [if_pos h]
    constructor
    · rintro ⟨a, ha⟩; exact absurd ha (by simp)
    · intro hle; omega
  · simp only [if_neg h]
    constructor
    · intro; omega
    · intro; exact ⟨_, rfl⟩

theorem toActionChat_ok_iff (d : ActionDefinition) (ms : List Matcher) :
    (∃ a, toActionChat d ms = .ok a) ↔
      (chatOk d = true ∧ reactionCount d ≤ 1) := by
  unfold toActionChat chatOk
  cases d.chat with
  | none => simp [toActionReaction_ok_iff]
  | some c =>
    by_cases h1 : c = "server"
    · simp [h1, toActionReaction_ok_iff]
    · by_cases h2 : c = "channel"
      · simp [h1, h2, toActionReaction_ok_iff]
      · by_cases h3 : c = "client"
        · simp [h1, h2, h3, toActionReaction_ok_iff]
        · by_cases h4 : c = "poke"
          · simp [h1, h2, h3, h4, toActionReaction_ok_iff]
          · simp [h1, h2, h3, h4]

/-- C7 (amended): conversion of a rule definition succeeds iff it does
not supply both `contains` and `regex`, supplies at most one reaction
field, and additionally its chat mode (if present) is one of
server/channel/client/poke and the pattern handed to `Regex::new` (if
any) compiles. All failures happen at conversion (load) time; matching
(`Matcher::matches`) is total and cannot fail. -/
theorem to_action_ok_iff (compiles : CompileEnv) (d : ActionDefinition) :
    (∃ a, d.to_action compiles = .ok a) ↔
      (¬(d.contains.isSome = true ∧ d.regex.isSome = true) ∧
        reactionCount d ≤ 1 ∧ chatOk d = true ∧
        patternOk compiles d = true) := by
  unfold ActionDefinition.to_action patternOk
  cases hco : d.contains with
  | some c =>
    cases hrx : d.regex with
    | some m => simp
    | none =>
      by_cases hc : compiles (compiledContains c)
      · simp [hc, toActionChat_ok_iff, and_comm]
      · simp [hc]
  | none =>
    cases hrx : d.regex with
    | some m =>
      by_cases hc : compiles m
      · simp [hc, toActionChat_ok_iff, and_comm]
      · simp [hc]
    | none => simp [toActionChat_ok_iff, and_comm]

/-- Word character for the regex crate's `\b` assertion, modelled on the
ASCII range: alphanumeric or underscore. -/
def isWordChar (c : Char) : Bool := c.isAlphanum || c = '_'

/-- Whether position `i` of `s` holds a word character (positions outside
the string count as non-word). -/
def isWordAt (s : List Char) (i : Nat) : Bool :=
  match s[i]? with
  | some c => isWordChar c
  | none => false

/-- The regex `\b` assertion at position `i` (between characters `i - 1`
and `i`): true iff word-ness changes there, the two ends of the string
counting as non-word. -/
def boundaryAt (s : List Char) (i : Nat) : Bool :=
  (if i = 0 then false else isWordAt s (i - 1)) != isWordAt s i

/-- A token of the pattern fragment produced for literal triggers: a
literal character or the `\b` word-boundary assertion. -/
inductive RegexTok where
  | lit (c : Char)
  | anchor
deriving Repr, DecidableEq

/-- Tokenize a pattern of the literal fragment: a backslash escapes the
following character, except that the pair backslash-`b` is the
word-boundary assertion. Patterns built by `compiledContainsChars` only
ever contain escaped meta characters and the two anchors, so this
tokenization is unambiguous for them. -/
def regexToks : List Char → List RegexTok
  | [] => []
  | c :: rest =>
    if c = '\\' then
      match rest with
      | [] => [RegexTok.lit c]
      | c2 :: rest2 =>
        (if c2 = 'b' then RegexTok.anchor else RegexTok.lit c2) :: regexToks rest2
    else RegexTok.lit c :: regexToks rest

/-- Match a token sequence against `s` starting at position `i`. -/
def toksMatchFrom (s : List Char) : List RegexTok → Nat → Bool
  | [], _ => true
  | .anchor :: ts, i => boundaryAt s i && toksMatchFrom s ts i
  | .lit c :: ts, i =>
    match s[i]? with
    | some c2 => c2 == c && toksMatchFrom s ts (i + 1)
    | none => false

/-- `Regex::is_match` semantics for the literal fragment: the tokenized
pattern matches starting at some position of `s` (positions `0` through
`s.length` inclusive, as the empty suffix can carry an anchor match). -/
def fragMatch (pat s : List Char) : Bool :=
  (List.range (s.length + 1)).any (fun i => toksMatchFrom s (regexToks pat) i)

theorem regexToks_cons_plain (c : Char) (rest : List Char) (h : c ≠ '\\') :
    regexToks (c :: rest) = RegexTok.lit c :: regexToks rest := by
  rw [regexToks.eq_def]
  simp [h]

theorem regexToks_cons_escaped (c2 : Char) (rest2 : List Char) :
    regexToks ('\\' :: c2 :: rest2) =
      (if c2 = 'b' then RegexTok.anchor else RegexTok.lit c2) :: regexToks rest2 := by
  rw [regexToks.eq_def]
  simp

theorem regexToks_anchor (l : List Char) :
    regexToks ('\\' :: 'b' :: l) = RegexTok.anchor :: regexToks l := by
  rw [regexToks_cons_escaped]
  simp

theorem regexToks_escape_append (t l : List Char) :
    regexToks (escapeChars t ++ l) = t.map RegexTok.lit ++ regexToks l := by
  induction t with
  | nil => simp [escapeChars]
  | cons c rest ih =>
    by_cases hm : isMetaChar c
    · have hcb : c ≠ 'b' := by
        intro h; subst h; exact absurd hm (by decide)
      simp only [escapeChars, if_pos hm, List.cons_append, List.map_cons]
      rw [regexToks_cons_escaped]
      simp [hcb, ih]
    · have hcback : c ≠ '\\' := by
        intro h; subst h
        exact absurd (by decide : isMetaChar '\\' = true) (by simpa using hm)
      simp only [escapeChars, if_neg hm, List.cons_append, List.map_cons]
      rw [regexToks_cons_plain c _ hcback]
      simp [ih]

/-- The literal `t` occurs in `s` at position `i` (pointwise). -/
def occursAt (t s : List Char) (i : Nat) : Prop :=
  ∀ j, j < t.length → s[i + j]? = t[j]?

theorem occursAt_cons {c : Char} {rest s : List Char} {i : Nat} :
    occursAt (c :: rest) s i ↔ s[i]? = some c ∧ occursAt rest s (i + 1) := by
  unfold occursAt
  constructor
  · intro h
    refine ⟨by simpa using h 0 (Nat.succ_pos _), ?_⟩
    intro j hj
    have hh := h (j + 1) (Nat.succ_lt_succ hj)
    rw [show i + 1 + j = i + (j + 1) by omega, hh]
    simp
  · rintro ⟨h0, h⟩ j hj
    match j, hj with
    | 0, hj => simpa using h0
    | k + 1, hj =>
      have hh := h k (Nat.lt_of_succ_lt_succ hj)
      rw [show i + (k + 1) = i + 1 + k by omega, hh]
      simp

/-- Matching a run of literal tokens followed by `ts` from position `i`
means the literal occurs at `i` and `ts` matches after it. -/
theorem toksMatch_lits (s t : List Char) (ts : List RegexTok) (i : Nat) :
    toksMatchFrom s (t.map RegexTok.lit ++ ts) i = true ↔
      (occursAt t s i ∧ toksMatchFrom s ts (i + t.length) = true) := by
  induction t generalizing i with
  | nil =>
    simp only [List.map_nil, List.nil_append, List.length_nil, Nat.add_zero,
      iff_and_self]
    intro
    intro j hj
    exact absurd hj (Nat.not_lt_zero j)
  | cons c rest ih =>
    simp only [List.map_cons, List.cons_append]
    rw [toksMatchFrom]
    cases hg : s[i]? with
    | none =>
      simp only [Bool.false_eq_true, false_iff, not_and]
      intro hocc
      have h0 := hocc 0 (Nat.succ_pos _)
      rw [Nat.add_zero, hg] at h0
      exact absurd h0.symm (by simp)
    | some c2 =>
      simp only [Bool.and_eq_true, beq_iff_eq, ih, occursAt_cons, hg,
        List.length_cons]
      constructor
      · rintro ⟨rfl, hocc, hts⟩
        refine ⟨⟨rfl, hocc⟩, ?_⟩
        rw [show i + (rest.length + 1) = i + 1 + rest.length by omega]
        exact hts
      · rintro ⟨⟨hc, hocc⟩, hts⟩
        obtain rfl : c2 = c := by injection hc
        refine ⟨rfl, hocc, ?_⟩
        rw [show i + 1 + rest.length = i + (rest.length + 1) by omega]
        exact hts

theorem not_meta_of_alpha {c : Char} (h : c.isAlpha = true) :
    isMetaChar c = false := by
  cases hm : isMetaChar c
  · rfl
  · exfalso
    simp only [isMetaChar, Bool.or_eq_true, decide_eq_true_eq] at hm
    rcases hm with
      ((((((((((((((((rfl | rfl) | rfl) | rfl) | rfl) | rfl) | rfl) | rfl) |
        rfl) | rfl) | rfl) | rfl) | rfl) | rfl) | rfl) | rfl) | rfl) | rfl <;>
      exact absurd h (by decide)

theorem isWordChar_of_alpha {c : Char} (h : c.isAlpha = true) :
    isWordChar c = true := by
  simp [isWordChar, Char.isAlphanum, h]

theorem escapeChars_append (l1 l2 : List Char) :
    escapeChars (l1 ++ l2) = escapeChars l1 ++ escapeChars l2 := by
  induction l1 with
  | nil => simp [escapeChars]
  | cons c rest ih =>
    by_cases hm : isMetaChar c <;> simp [escapeChars, hm, ih]

theorem escapeChars_cons_alpha {c : Char} (rest : List Char)
    (h : c.isAlpha = true) :
    escapeChars (c :: rest) = c :: escapeChars rest := by
  simp [escapeChars, not_meta_of_alpha h]

/-- Structure of the compiled literal pattern: anchors go exactly on the
sides where the escaped literal has an alphabetic end character. -/
theorem compiledContainsChars_eq (t : List Char) :
    compiledContainsChars t =
      (if ((escapeChars t).head?.map Char.isAlpha).getD false then
        ['\\', 'b'] else []) ++ escapeChars t ++
      (if ((escapeChars t).getLast?.map Char.isAlpha).getD false then
        ['\\', 'b'] else []) := by
  unfold compiledContainsChars
  by_cases h1 : ((escapeChars t).head?.map Char.isAlpha).getD false = true
  · have hne : escapeChars t ≠ [] := by
      intro h
      rw [h] at h1
      simp at h1
    obtain ⟨e0, rest, he⟩ : ∃ e0 rest, escapeChars t = e0 :: rest := by
      cases hes : escapeChars t with
      | nil => exact absurd hes hne
      | cons a l => exact ⟨a, l, rfl⟩
    simp only [if_pos h1]
    have hlast : ('\\' :: 'b' :: escapeChars t).getLast? = (escapeChars t).getLast? := by
      rw [he, List.getLast?_cons_cons, List.getLast?_cons_cons]
    rw [hlast]
    by_cases h2 : ((escapeChars t).getLast?.map Char.isAlpha).getD false = true
    · simp [if_pos h2]
    · simp only [if_neg h2]
      simp [if_neg h2]
  · simp only [if_neg h1]
    by_cases h2 : ((escapeChars t).getLast?.map Char.isAlpha).getD false = true
    · simp [if_pos h2]
    · simp [if_neg h2]

/-- For a literal trigger with alphabetic first and last characters, the
compiled pattern is exactly the escaped literal wrapped in two
word-boundary anchors. -/
theorem compiledContainsChars_alpha (t : List Char) (c0 cN : Char)
    (hh : t.head? = some c0) (hha : c0.isAlpha = true)
    (hl : t.getLast? = some cN) (hla : cN.isAlpha = true) :
    compiledContainsChars t = '\\' :: 'b' :: (escapeChars t ++ ['\\', 'b']) := by
  have hhead : (escapeChars t).head? = some c0 := by
    obtain ⟨rest, rfl⟩ : ∃ rest, t = c0 :: rest := by
      cases t with
      | nil => exact absurd hh (by simp)
      | cons a l =>
        obtain rfl : a = c0 := by simpa using hh
        exact ⟨l, rfl⟩
    rw [escapeChars_cons_alpha _ hha]
    rfl
  have hlast : (escapeChars t).getLast? = some cN := by
    obtain ⟨front, rfl⟩ : ∃ front, t = front ++ [cN] :=
      List.getLast?_eq_some_iff.mp hl
    rw [escapeChars_append]
    have h1 : escapeChars [cN] = [cN] := by
      simp [escapeChars, not_meta_of_alpha hla]
    rw [h1, List.getLast?_concat]
  rw [compiledContainsChars_eq, hhead, hlast]
  simp [hha, hla]

theorem regexToks_contains (t : List Char) :
    regexToks ('\\' :: 'b' :: (escapeChars t ++ ['\\', 'b'])) =
      RegexTok.anchor :: (t.map RegexTok.lit ++ [RegexTok.anchor]) := by
  rw [regexToks_anchor, regexToks_escape_append]
  have h : regexToks ['\\', 'b'] = [RegexTok.anchor] := by decide
  rw [h]

/-- Matching the anchored literal pattern at `i` is: boundary at `i`,
occurrence of the literal at `i`, boundary after it. -/
theorem anchored_decomp (s t : List Char) (i : Nat) :
    toksMatchFrom s (RegexTok.anchor :: (t.map RegexTok.lit ++ [RegexTok.anchor]))
        i = true ↔
      (boundaryAt s i = true ∧ occursAt t s i ∧
        boundaryAt s (i + t.length) = true) := by
  rw [toksMatchFrom, Bool.and_eq_true, toksMatch_lits]
  constructor
  · rintro ⟨hb, hocc, h2⟩
    rw [toksMatchFrom, Bool.and_eq_true] at h2
    exact ⟨hb, hocc, h2.1⟩
  · rintro ⟨hb, hocc, h2⟩
    refine ⟨hb, hocc, ?_⟩
    rw [toksMatchFrom, Bool.and_eq_true]
    exact ⟨h2, rfl⟩

theorem getElem_append_middle (pre t post : List Char) (j : Nat)
    (hj : j < t.length) :
    (pre ++ (t ++ post))[pre.length + j]? = t[j]? := by
  rw [List.getElem?_append_right (by omega : pre.length ≤ pre.length + j)]
  rw [show pre.length + j - pre.length = j by omega]
  rw [List.getElem?_append_left hj]

theorem getElem_append_post (pre t post : List Char) (j : Nat) :
    (pre ++ (t ++ post))[pre.length + t.length + j]? = post[j]? := by
  rw [List.getElem?_append_right
    (by omega : pre.length ≤ pre.length + t.length + j)]
  rw [show pre.length + t.length + j - pre.length = t.length + j by omega]
  rw [List.getElem?_append_right (by omega : t.length ≤ t.length + j)]
  rw [show t.length + j - t.length = j by omega]

/-- The anchored pattern for an alphabetic-ended literal matches it as a
whole word, here inside the text that surrounds it with spaces. -/
theorem contains_matches_spaced (t : List Char) (c0 cN : Char)
    (hh : t.head? = some c0) (hha : c0.isAlpha = true)
    (hl : t.getLast? = some cN) (hla : cN.isAlpha = true) :
    fragMatch ('\\' :: 'b' :: (escapeChars t ++ ['\\', 'b']))
      ("foo ".data ++ (t ++ " bar".data)) = true := by
  have hn : 1 ≤ t.length := by
    cases t
    · exact absurd hh (by simp)
    · simp
  unfold fragMatch
  rw [regexToks_contains, List.any_eq_true]
  refine ⟨4, List.mem_range.mpr (by simp), ?_⟩
  rw [anchored_decomp]
  have hpre : ("foo ".data : List Char).length = 4 := rfl
  have h3 : ("foo ".data ++ (t ++ " bar".data))[3]? = some ' ' := by
    rw [List.getElem?_append_left (by rw [hpre]; omega)]
    rfl
  have h4 : ("foo ".data ++ (t ++ " bar".data))[4]? = some c0 := by
    have hm := getElem_append_middle "foo ".data t " bar".data 0 (by omega)
    rw [hpre] at hm
    rw [show (4 : Nat) = 4 + 0 by omega, hm, ← List.head?_eq_getElem?, hh]
  have hw3 : isWordAt ("foo ".data ++ (t ++ " bar".data)) 3 = false := by
    unfold isWordAt
    rw [h3]
    decide
  have hw4 : isWordAt ("foo ".data ++ (t ++ " bar".data)) 4 = true := by
    unfold isWordAt
    rw [h4]
    exact isWordChar_of_alpha hha
  refine ⟨?_, ?_, ?_⟩
  · unfold boundaryAt
    rw [if_neg (by omega : ¬(4 : Nat) = 0), hw3, hw4]
    rfl
  · intro j hj
    have hm := getElem_append_middle "foo ".data t " bar".data j hj
    rw [hpre] at hm
    exact hm
  · have hleft : ("foo ".data ++ (t ++ " bar".data))[4 + t.length - 1]? = some cN := by
      have hm := getElem_append_middle "foo ".data t " bar".data (t.length - 1) (by omega)
      rw [hpre] at hm
      rw [show 4 + t.length - 1 = 4 + (t.length - 1) by omega, hm]
      rw [← List.getLast?_eq_getElem?, hl]
    have hright : ("foo ".data ++ (t ++ " bar".data))[4 + t.length]? = some ' ' := by
      have hm := getElem_append_post "foo ".data t " bar".data 0
      rw [hpre] at hm
      rw [show 4 + t.length = 4 + t.length + 0 by omega, hm]
      rfl
    have hwl : isWordAt ("foo ".data ++ (t ++ " bar".data)) (4 + t.length - 1) = true := by
      unfold isWordAt
      rw [hleft]
      exact isWordChar_of_alpha hla
    have hwr : isWordAt ("foo ".data ++ (t ++ " bar".data)) (4 + t.length) = false := by
      unfold isWordAt
      rw [hright]
      decide
    unfold boundaryAt
    rw [if_neg (by omega : ¬4 + t.length = 0), hwl, hwr]
    rfl

/-- The anchored pattern for an alphabetic-ended literal does not match
when the literal is glued to adjacent alphabetic runs, as in
`foo ++ t ++ bar`. -/
theorem contains_glued_no_match (t : List Char) (c0 cN : Char)
    (hh : t.head? = some c0) (hha : c0.isAlpha = true)
    (hl : t.getLast? = some cN) (hla : cN.isAlpha = true) :
    fragMatch ('\\' :: 'b' :: (escapeChars t ++ ['\\', 'b']))
      ("foo".data ++ (t ++ "bar".data)) = false := by
  have hn : 1 ≤ t.length := by
    cases t
    · exact absurd hh (by simp)
    · simp
  unfold fragMatch
  rw [regexToks_contains, List.any_eq_false]
  intro i hi
  intro hmatch
  rw [anchored_decomp] at hmatch
  obtain ⟨hbl, hocc, hbr⟩ := hmatch
  have hpre : ("foo".data : List Char).length = 3 := rfl
  have hbarlen : ("bar".data : List Char).length = 3 := rfl
  have hslen : ("foo".data ++ (t ++ "bar".data)).length = t.length + 6 := by
    rw [List.length_append, List.length_append, hpre, hbarlen]
    omega
  have hst : ∀ j, j < t.length →
      ("foo".data ++ (t ++ "bar".data))[3 + j]? = t[j]? := by
    intro j hj
    have hm := getElem_append_middle "foo".data t "bar".data j hj
    rw [hpre] at hm
    exact hm
  have hsbar : ∀ j,
      ("foo".data ++ (t ++ "bar".data))[3 + t.length + j]? = "bar".data[j]? := by
    intro j
    have hm := getElem_append_post "foo".data t "bar".data j
    rw [hpre] at hm
    exact hm
  have hsfoo : ∀ j, j < 3 →
      ("foo".data ++ (t ++ "bar".data))[j]? = "foo".data[j]? := by
    intro j hj
    exact List.getElem?_append_left (by rw [hpre]; omega)
  have ht0 : t[0]? = some c0 := by
    rw [← List.head?_eq_getElem?]
    exact hh
  have htl : t[t.length - 1]? = some cN := by
    rw [← List.getLast?_eq_getElem?]
    exact hl
  have hibound : i ≤ 6 := by
    have h1 := hocc (t.length - 1) (by omega)
    rw [htl] at h1
    have h2 : i + (t.length - 1) < ("foo".data ++ (t ++ "bar".data)).length := by
      by_contra hc
      push_neg at hc
      rw [List.getElem?_eq_none hc] at h1
      exact absurd h1.symm (by simp)
    rw [hslen] at h2
    omega
  have hsi : ("foo".data ++ (t ++ "bar".data))[i]? = some c0 := by
    have h1 := hocc 0 (by omega)
    rw [Nat.add_zero, ht0] at h1
    exact h1
  have hwi : isWordAt ("foo".data ++ (t ++ "bar".data)) i = true := by
    unfold isWordAt
    rw [hsi]
    exact isWordChar_of_alpha hha
  have hleft0 : i = 0 ∨
      isWordAt ("foo".data ++ (t ++ "bar".data)) (i - 1) = false := by
    unfold boundaryAt at hbl
    rw [hwi] at hbl
    by_cases h0 : i = 0
    · exact Or.inl h0
    · right
      rw [if_neg h0] at hbl
      cases hwim : isWordAt ("foo".data ++ (t ++ "bar".data)) (i - 1)
      · rfl
      · rw [hwim] at hbl
        exact absurd hbl (by decide)
  have hsm1 : ("foo".data ++ (t ++ "bar".data))[i + t.length - 1]? = some cN := by
    have h1 := hocc (t.length - 1) (by omega)
    rw [htl] at h1
    rw [show i + t.length - 1 = i + (t.length - 1) by omega]
    exact h1
  have hwm1 : isWordAt ("foo".data ++ (t ++ "bar".data)) (i + t.length - 1) = true := by
    unfold isWordAt
    rw [hsm1]
    exact isWordChar_of_alpha hla
  have hrightw : isWordAt ("foo".data ++ (t ++ "bar".data)) (i + t.length) = false := by
    unfold boundaryAt at hbr
    rw [if_neg (by omega : ¬i + t.length = 0), hwm1] at hbr
    cases hw : isWordAt ("foo".data ++ (t ++ "bar".data)) (i + t.length)
    · rfl
    · rw [hw] at hbr
      exact absurd hbr (by decide)
  interval_cases i
  · -- i = 0: every character of t is a word character (forward period 3),
    -- contradicting the required non-word character at position t.length.
    have hAw : ∀ j, j < t.length → isWordAt t j = true := by
      intro j
      induction j using Nat.strong_induction_on with
      | _ j ih =>
        intro hj
        by_cases h3 : j < 3
        · have h1 := hocc j hj
          rw [Nat.zero_add] at h1
          rw [hsfoo j h3] at h1
          unfold isWordAt
          rw [← h1]
          interval_cases j <;> decide
        · have h1 := hocc j hj
          rw [Nat.zero_add] at h1
          have h2 := hst (j - 3) (by omega)
          rw [show 3 + (j - 3) = j by omega] at h2
          rw [h2] at h1
          have h4 := ih (j - 3) (by omega) (by omega)
          unfold isWordAt at h4 ⊢
          rw [← h1]
          exact h4
    rw [Nat.zero_add] at hrightw
    by_cases h3 : t.length < 3
    · have h1 := hsfoo t.length (by omega)
      unfold isWordAt at hrightw
      rw [h1] at hrightw
      rcases (by omega : t.length = 1 ∨ t.length = 2) with he | he <;>
        rw [he] at hrightw <;> exact absurd hrightw (by decide)
    · have h1 := hst (t.length - 3) (by omega)
      rw [show 3 + (t.length - 3) = t.length by omega] at h1
      have h2 := hAw (t.length - 3) (by omega)
      unfold isWordAt at hrightw h2
      rw [h1] at hrightw
      exact Bool.noConfusion (h2.symm.trans hrightw)
  · -- i = 1: the character before it is foo-letter o, a word character.
    rcases hleft0 with h0 | hfw
    · exact absurd h0 (by decide)
    · have h1 := hsfoo 0 (by omega)
      unfold isWordAt at hfw
      rw [show (1 : Nat) - 1 = 0 by omega, h1] at hfw
      exact absurd hfw (by decide)
  · rcases hleft0 with h0 | hfw
    · exact absurd h0 (by decide)
    · have h1 := hsfoo 1 (by omega)
      unfold isWordAt at hfw
      rw [show (2 : Nat) - 1 = 1 by omega, h1] at hfw
      exact absurd hfw (by decide)
  · rcases hleft0 with h0 | hfw
    · exact absurd h0 (by decide)
    · have h1 := hsfoo 2 (by omega)
      unfold isWordAt at hfw
      rw [show (3 : Nat) - 1 = 2 by omega, h1] at hfw
      exact absurd hfw (by decide)
  · -- i = 4: the character before it is t's first character, alphabetic.
    rcases hleft0 with h0 | hfw
    · exact absurd h0 (by decide)
    · have h1 := hst 0 (by omega)
      rw [Nat.add_zero, ht0] at h1
      unfold isWordAt at hfw
      rw [show (4 : Nat) - 1 = 3 by omega, h1] at hfw
      have hw : isWordChar c0 = false := hfw
      rw [isWordChar_of_alpha hha] at hw
      exact Bool.noConfusion hw
  · -- i = 5: the character after the occurrence is bar-letter r.
    have h1 := hsbar 2
    rw [show 3 + t.length + 2 = 5 + t.length by omega] at h1
    unfold isWordAt at hrightw
    rw [h1] at hrightw
    exact absurd hrightw (by decide)
  · -- i = 6: every character of t is a word character (backward period 3),
    -- contradicting the required non-word character at position 5.
    have hBw : ∀ d j, j < t.length → t.length - j ≤ d → isWordAt t j = true := by
      intro d
      induction d with
      | zero =>
        intro j hj hd
        omega
      | succ d ihd =>
        intro j hj hd
        by_cases hjb : t.length ≤ j + 3
        · have h1 := hocc j hj
          have h2 := hsbar (j + 3 - t.length)
          rw [show 3 + t.length + (j + 3 - t.length) = 6 + j by omega] at h2
          rw [h2] at h1
          unfold isWordAt
          rw [← h1]
          rcases (by omega : j + 3 - t.length = 0 ∨ j + 3 - t.length = 1 ∨
              j + 3 - t.length = 2) with he | he | he <;> rw [he] <;> decide
        · have h1 := hocc j hj
          have h2 := hst (j + 3) (by omega)
          rw [show 3 + (j + 3) = 6 + j by omega] at h2
          rw [h2] at h1
          have h4 := ihd (j + 3) (by omega) (by omega)
          unfold isWordAt at h4 ⊢
          rw [← h1]
          exact h4
    rcases hleft0 with h0 | hfw
    · exact absurd h0 (by decide)
    · by_cases h3 : t.length < 3
      · have h1 := hsbar (2 - t.length)
        rw [show 3 + t.length + (2 - t.length) = 5 by omega] at h1
        unfold isWordAt at hfw
        rw [show (6 : Nat) - 1 = 5 by omega, h1] at hfw
        rcases (by omega : t.length = 1 ∨ t.length = 2) with he | he <;>
          rw [he] at hfw <;> exact absurd hfw (by decide)
      · have h1 := hst 2 (by omega)
        rw [show (3 : Nat) + 2 = 5 by omega] at h1
        have h2 := hBw t.length 2 (by omega) (by omega)
        unfold isWordAt at hfw h2
        rw [show (6 : Nat) - 1 = 5 by omega, h1] at hfw
        exact Bool.noConfusion (h2.symm.trans hfw)

/-- C5: a matcher built from a literal `contains` string escapes all
regex metacharacters and places a word-boundary anchor exactly on the
sides where the escaped literal begins/ends with an alphabetic
character; consequently every literal trigger with alphabetic boundary
characters matches as a whole word inside `"foo t bar"` but does not
match glued to alphabetic runs, as in `"foo" ++ t ++ "bar"` (the shape of
`"foot tbar"`). Matching of the produced pattern fragment is the
executable `fragMatch` semantics of the regex crate. -/
theorem contains_wordboundary_matching (t : List Char) (c0 cN : Char)
    (hh : t.head? = some c0) (hha : c0.isAlpha = true)
    (hl : t.getLast? = some cN) (hla : cN.isAlpha = true) :
    (∀ u : List Char,
      compiledContainsChars u =
        (if ((escapeChars u).head?.map Char.isAlpha).getD false then
          ['\\', 'b'] else []) ++ escapeChars u ++
        (if ((escapeChars u).getLast?.map Char.isAlpha).getD false then
          ['\\', 'b'] else [])) ∧
    fragMatch (compiledContainsChars t)
      ("foo ".data ++ (t ++ " bar".data)) = true ∧
    fragMatch (compiledContainsChars t)
      ("foo".data ++ (t ++ "bar".data)) = false := by
  refine ⟨compiledContainsChars_eq, ?_, ?_⟩
  · rw [compiledContainsChars_alpha t c0 cN hh hha hl hla]
    exact contains_matches_spaced t c0 cN hh hha hl hla
  · rw [compiledContainsChars_alpha t c0 cN hh hha hl hla]
    exact contains_glued_no_match t c0 cN hh hha hl hla

/-- Witness for C5 at the literal trigger `hi`. -/
theorem contains_wordboundary_matching_witness :
    fragMatch (compiledContainsChars "hi".data)
      ("foo ".data ++ ("hi".data ++ " bar".data)) = true ∧
    fragMatch (compiledContainsChars "hi".data)
      ("foo".data ++ ("hi".data ++ "bar".data)) = false :=
  ⟨(contains_wordboundary_matching "hi".data 'h' 'i' (by decide) (by decide)
      (by decide) (by decide)).2.1,
   (contains_wordboundary_matching "hi".data 'h' 'i' (by decide) (by decide)
      (by decide) (by decide)).2.2⟩

/-- Counterexample for C7 as stated: this definition supplies neither
both matcher fields nor more than one reaction, yet conversion fails at
load time because of its chat mode, refuting that a definition violating
neither named constraint always converts successfully. -/
theorem to_action_chat_counterexample :
    (¬((ActionDefinition.mk none none (some "everywhere") (some "hi") none
        none).contains.isSome = true ∧
      (ActionDefinition.mk none none (some "everywhere") (some "hi") none
        none).regex.isSome = true)) ∧
    reactionCount (ActionDefinition.mk none none (some "everywhere")
      (some "hi") none none) ≤ 1 ∧
    (ActionDefinition.mk none none (some "everywhere") (some "hi") none
        none).to_action (fun _ => true) =
      .error "Chat mode must be server, channel, client or poke." := by
  refine ⟨by decide, by decide, rfl⟩

/-- Fuel-driven core of leftmost non-overlapping replacement; the fuel
bounds the number of consumed characters, so `s.length` always
suffices. -/
def replaceCharsFuel (pat rep : List Char) : Nat → List Char → List Char
  | 0, s => s
  | _ + 1, [] => []
  | fuel + 1, c :: rest =>
    if pat.isPrefixOf (c :: rest) then
      rep ++ replaceCharsFuel pat rep fuel ((c :: rest).drop pat.length)
    else c :: replaceCharsFuel pat rep fuel rest

/-- Embeds Rust `str::replace`: replace every leftmost non-overlapping
occurrence of `pat` by `rep`. -/
def strReplace (s pat rep : String) : String :=
  String.mk (replaceCharsFuel pat.data rep.data s.data.length s.data)

/-- Embeds `Reaction::get_mode` (src/action.rs:200-210). The `Unknown`
mode panics in the source and is never constructed by this program
(`to_action` only builds the four named modes), so it is mapped to an
arbitrary label here. -/
def getMode : Option TextMessageTargetMode → String
  | some .server => "server"
  | some .channel => "channel"
  | some .client => "client"
  | some .unknown => "unknown"
  | none => "poke"

/-- Embeds the matcher rendering of `init_list` (src/builtins.rs:263-278):
strip anchors and word boundaries from a regex pattern and undo the two
common escapes; render a mode matcher as its parenthesized label. -/
def matcherDescr (m : Matcher) : String :=
  match m with
  | .regex r =>
    strReplace (strReplace (strReplace (strReplace (strReplace r "^" "")
      "$" "") "\\b" "") "\\\\" "\\") "\\." "."
  | .mode m => " (only in " ++ getMode m ++ " mode)"

/-- One action's listing line: its matcher renderings concatenated
(src/builtins.rs:261-280). -/
def actionDescr (a : Action) : String :=
  a.matchers.foldl (fun res m => res ++ matcherDescr m) ""

/-- Lexicographic comparison of char lists by code point (the order
`sort_unstable` uses on ASCII strings). -/
def charListLe : List Char → List Char → Bool
  | [], _ => true
  | _ :: _, [] => false
  | a :: as, b :: bs =>
    if a.val < b.val then true
    else if b.val < a.val then false
    else charListLe as bs

/-- String comparison used for the listing sort. -/
def strLe (a b : String) : Bool := charListLe a.data b.data

/-- Insertion into a sorted list (ascending). -/
def insertSorted (a : String) : List String → List String
  | [] => [a]
  | b :: rest => if strLe a b then a :: b :: rest else b :: insertSorted a rest

/-- Sorting of the listing lines; the source's `sort_unstable`
(src/builtins.rs:282) only promises an ascending reordering, which
insertion sort provides. -/
def sortStrings : List String → List String
  | [] => []
  | a :: rest => insertSorted a (sortStrings rest)

/-- Embeds `Vec::dedup` (src/builtins.rs:283): collapse runs of equal
adjacent elements. -/
def dedupAdjacent : List String → List String
  | [] => []
  | [a] => [a]
  | a :: b :: rest =>
    if a = b then dedupAdjacent (b :: rest) else a :: dedupAdjacent (b :: rest)

/-- Embeds the page-packing loop of `init_list` (src/builtins.rs:285-295):
`done` holds the finished pages, `cur` the page being filled (the code's
`res.last_mut()`); a new page is started when the current page plus the
next line would exceed 900 characters, and each added line is preceded by
a newline. -/
def packLoop : List String → List String → String → List String
  | [], done, cur => done ++ [cur]
  | m :: ms, done, cur =>
    if cur.length + m.length > 900 then
      packLoop ms (done ++ [cur]) ("\n" ++ m)
    else
      packLoop ms done (cur ++ "\n" ++ m)

/-- The page list built from the listing lines (src/builtins.rs:287-295,
starting from `vec![String::new()]`). -/
def initListPages (ms : List String) : List String := packLoop ms [] ""

/-- Embeds `init_list` (src/builtins.rs:259-298): render, sort, dedup,
then pack into pages. -/
def initList (actions : List Action) : List String :=
  initListPages (dedupAdjacent (sortStrings (actions.map actionDescr)))

/-- Embeds the page-number computation of the `list` builtin
(src/builtins.rs:229-241): the argument is the parsed `<page>` token of
the message (`none` when absent or unparsable; the `rfind`/`parse`
extraction is outside the model); nonzero numbers are 1-indexed, and an
out-of-range index clamps to the last page. -/
def pageClamp (pages : List String) (page : Nat) : Nat :=
  if page ≥ pages.length then pages.length - 1 else page

def listPageIndex (pages : List String) (arg : Option Nat) : Nat :=
  pageClamp pages
    (match arg with
    | some n => if n ≠ 0 then n - 1 else 0
    | none => 0)

/-- Embeds the reply rendering of the `list` builtin
(src/builtins.rs:243-256); `prefixEsc` is the command marker already
passed through `escape_bb` (that helper is not part of the sources). -/
def listReply (pages : List String) (prefixEsc : String) (arg : Option Nat) :
    String :=
  let page := listPageIndex pages arg
  let pageS := pages.getD page ""
  if pages.length > 1 then
    "Page " ++ toString (page + 1) ++ "/" ++ toString pages.length ++
      ", use [i]" ++ prefixEsc ++ "list <page>[/i] to show more." ++ pageS
  else pageS

/-- The retain predicate of the `del` builtin (src/builtins.rs:165): keep
a definition iff its `contains` field, when present, differs from the
trigger. -/
def delKeep (trigger : String) (a : ActionDefinition) : Bool :=
  (a.contains.map (fun c => c != trigger)).getD true

/-- Embeds the `retain`-with-counter loop of the `del` builtin
(src/builtins.rs:163-170). -/
def delRetain (trigger : String) (defs : List ActionDefinition) :
    List ActionDefinition × Nat :=
  defs.foldl
    (fun acc a =>
      if delKeep trigger a then (acc.1 ++ [a], acc.2) else (acc.1, acc.2 + 1))
    ([], 0)

/-- The reply of the `del` builtin (src/builtins.rs:179-183). -/
def delMessage (count : Nat) : String :=
  if count = 1 then "Removed " ++ toString count ++ " element"
  else "Removed " ++ toString count ++ " elements"

/-- Embeds the core of the `del` builtin (src/builtins.rs:126-184) after
trigger extraction and dynamic-store loading: the retained store, the
removal count, and the reported reply (persistence and the reload
trigger are file-system effects outside the model). -/
def delCore (trigger : String) (dynamic : List ActionDefinition) :
    List ActionDefinition × Nat × String :=
  let r := delRetain trigger dynamic
  (r.1, r.2, delMessage r.2)

theorem packLoop_ne_nil (ms : List String) (done : List String) (cur : String) :
    packLoop ms done cur ≠ [] := by
  induction ms generalizing done cur with
  | nil => simp [packLoop]
  | cons m rest ih =>
    rw [packLoop]
    by_cases h : cur.length + m.length > 900
    · rw [if_pos h]
      exact ih _ _
    · rw [if_neg h]
      exact ih _ _

theorem pageClamp_lt (pages : List String) (h : 1 ≤ pages.length)
    (page : Nat) : pageClamp pages page < pages.length := by
  unfold pageClamp
  split
  · omega
  · omega

theorem listPageIndex_lt (pages : List String) (h : 1 ≤ pages.length)
    (arg : Option Nat) : listPageIndex pages arg < pages.length := by
  unfold listPageIndex
  exact pageClamp_lt pages h _

/-- C9: after `init_list` runs, the page list contains at least one page
even with zero actions, so the clamp `bot.list.len() - 1` cannot
underflow (the length is at least one) and the page index access
`bot.list[page]` is in bounds for every requested page argument. -/
theorem init_list_index_safe (actions : List Action) (arg : Option Nat) :
    1 ≤ (initList actions).length ∧
    listPageIndex (initList actions) arg < (initList actions).length := by
  have h1 : initList actions ≠ [] := by
    unfold initList initListPages
    exact packLoop_ne_nil _ _ _
  have h2 : 1 ≤ (initList actions).length := List.length_pos.mpr h1
  exact ⟨h2, listPageIndex_lt _ h2 arg⟩

theorem delRetain_go (trigger : String) (defs : List ActionDefinition)
    (acc : List ActionDefinition) (cnt : Nat) :
    defs.foldl
      (fun acc a =>
        if delKeep trigger a then (acc.1 ++ [a], acc.2) else (acc.1, acc.2 + 1))
      (acc, cnt) =
      (acc ++ defs.filter (delKeep trigger),
        cnt + (defs.filter (fun a => !delKeep trigger a)).length) := by
  induction defs generalizing acc cnt with
  | nil => simp
  | cons a rest ih =>
    by_cases h : delKeep trigger a
    · simp only [List.foldl_cons, if_pos h, ih, List.filter_cons, h,
        Bool.not_true, if_pos, if_neg]
      simp [h]
    · simp only [List.foldl_cons, if_neg h, ih]
      have hb : delKeep trigger a = false := by
        revert h
        cases delKeep trigger a <;> simp
      simp [List.filter_cons, hb]
      omega

theorem delRetain_eq (trigger : String) (defs : List ActionDefinition) :
    delRetain trigger defs =
      (defs.filter (delKeep trigger),
        (defs.filter (fun a => !delKeep trigger a)).length) := by
  unfold delRetain
  rw [delRetain_go]
  simp

theorem delKeep_eq (trigger : String) (a : ActionDefinition) :
    delKeep trigger a = !(a.contains == some trigger) := by
  unfold delKeep
  cases a.contains with
  | none => rfl
  | some c => rfl

/-- C10: the `del` builtin removes exactly those dynamic rules whose
literal `contains` field equals the given trigger; rules defined via a
raw regex pattern (no `contains`) are always retained; and the reported
count (in the `Removed n element(s)` reply) equals the number of removed
rules. -/
theorem del_removes_exactly_contains (trigger : String)
    (dynamic : List ActionDefinition) :
    (delCore trigger dynamic).1 =
        dynamic.filter (fun a => !(a.contains == some trigger)) ∧
    (delCore trigger dynamic).2.1 =
        (dynamic.filter (fun a => a.contains == some trigger)).length ∧
    (∀ a, a ∈ dynamic → a.contains = none →
        a ∈ (delCore trigger dynamic).1) ∧
    (delCore trigger dynamic).2.2 =
        delMessage
          ((dynamic.filter (fun a => a.contains == some trigger)).length) := by
  have hfilter1 : dynamic.filter (delKeep trigger) =
      dynamic.filter (fun a => !(a.contains == some trigger)) :=
    List.filter_congr (fun a _ => delKeep_eq trigger a)
  have hfilter2 : dynamic.filter (fun a => !delKeep trigger a) =
      dynamic.filter (fun a => a.contains == some trigger) :=
    List.filter_congr (fun a _ => by rw [delKeep_eq]; simp)
  have hcore : delCore trigger dynamic =
      (dynamic.filter (fun a => !(a.contains == some trigger)),
        (dynamic.filter (fun a => a.contains == some trigger)).length,
        delMessage
          ((dynamic.filter (fun a => a.contains == some trigger)).length)) := by
    unfold delCore
    rw [delRetain_eq, hfilter1, hfilter2]
  refine ⟨by rw [hcore], by rw [hcore], ?_, by rw [hcore]⟩
  intro a ha hnone
  rw [hcore]
  simp only [List.mem_filter]
  exact ⟨ha, by rw [hnone]; rfl⟩

/-- Witness for C10: deleting trigger `x` from a store holding one
literal `x` rule and one regex-only rule removes exactly the literal one
and reports one removal. -/
theorem del_removes_exactly_contains_witness :
    (delCore "x" [ActionDefinition.mk (some "x") none none (some "r") none none,
        ActionDefinition.mk none (some "p.*") none (some "s") none none]).2.1 = 1 ∧
    ActionDefinition.mk none (some "p.*") none (some "s") none none ∈
      (delCore "x" [ActionDefinition.mk (some "x") none none (some "r") none none,
        ActionDefinition.mk none (some "p.*") none (some "s") none none]).1 := by
  constructor
  · rw [(del_removes_exactly_contains "x" _).2.1]
    decide
  · exact (del_removes_exactly_contains "x"
      [ActionDefinition.mk (some "x") none none (some "r") none none,
        ActionDefinition.mk none (some "p.*") none (some "s") none none]).2.2.1
      _ (by decide) rfl

theorem packLoop_bound (ms : List String) (done : List String) (cur : String)
    (hms : ∀ m ∈ ms, m.length ≤ 900)
    (hdone : ∀ p ∈ done, p.length ≤ 901)
    (hcur : cur.length ≤ 901) :
    ∀ p ∈ packLoop ms done cur, p.length ≤ 901 := by
  induction ms generalizing done cur with
  | nil =>
    intro p hp
    rw [packLoop] at hp
    rcases List.mem_append.mp hp with h | h
    · exact hdone p h
    · simp only [List.mem_singleton] at h
      subst h
      exact hcur
  | cons m rest ih =>
    intro p hp
    rw [packLoop] at hp
    have hm : m.length ≤ 900 := hms m (by simp)
    have hnl : ("\n" : String).length = 1 := rfl
    by_cases h : cur.length + m.length > 900
    · rw [if_pos h] at hp
      refine ih _ _ (fun x hx => hms x (by simp [hx])) ?_ ?_ p hp
      · intro q hq
        rcases List.mem_append.mp hq with h1 | h1
        · exact hdone q h1
        · simp only [List.mem_singleton] at h1
          subst h1
          exact hcur
      · rw [String.length_append, hnl]
        omega
    · rw [if_neg h] at hp
      push_neg at h
      refine ih _ _ (fun x hx => hms x (by simp [hx])) hdone ?_ p hp
      rw [String.length_append, String.length_append, hnl]
      omega

/-- Counterexample for C8 as stated: two listing lines of 449 and 450
characters (from two regex rules) are packed onto a single page of 901
characters — the 900-character check ignores the joining newline that is
then appended, so a page does not stay under the budget. -/
theorem list_page_budget_counterexample :
    (initList
        [Action.mk [Matcher.regex (String.mk (List.replicate 449 'a'))] none,
         Action.mk [Matcher.regex (String.mk (List.replicate 450 'a'))] none]).map
        String.length = [901] ∧
    ¬(∀ p ∈ initList
        [Action.mk [Matcher.regex (String.mk (List.replicate 449 'a'))] none,
         Action.mk [Matcher.regex (String.mk (List.replicate 450 'a'))] none],
        p.length ≤ 900) := by
  constructor
  · decide
  · decide

/-- C8 (amended): `init_list` packs the sorted, deduplicated listing
greedily — a new page starts when the current page's stored length plus
the next line's length exceeds 900, the joining newline being appended
afterwards and not counted — so with every line within the budget each
page stays within 901 characters (not 900); an out-of-range page number
clamps to the last page; and the user-facing page numbering is
1-indexed. -/
theorem list_pagination_properties (ms : List String) (actions : List Action)
    (pe : String) (arg : Option Nat) (n : Nat) :
    ((∀ m ∈ ms, m.length ≤ 900) →
      ∀ p ∈ initListPages ms, p.length ≤ 901) ∧
    (initList actions =
      initListPages (dedupAdjacent (sortStrings (actions.map actionDescr)))) ∧
    (1 ≤ n → (initList actions).length < n →
      listPageIndex (initList actions) (some n) =
        (initList actions).length - 1) ∧
    (1 ≤ n → n ≤ (initList actions).length →
      listPageIndex (initList actions) (some n) = n - 1) ∧
    (1 < (initList actions).length →
      listReply (initList actions) pe arg =
        "Page " ++ toString (listPageIndex (initList actions) arg + 1) ++ "/" ++
          toString (initList actions).length ++ ", use [i]" ++ pe ++
          "list <page>[/i] to show more." ++
          (initList actions).getD (listPageIndex (initList actions) arg) "") := by
  refine ⟨?_, rfl, ?_, ?_, ?_⟩
  · intro hms
    exact packLoop_bound ms [] "" hms (by simp) (by decide)
  · intro h1 hgt
    have hred : listPageIndex (initList actions) (some n) =
        pageClamp (initList actions) (if n ≠ 0 then n - 1 else 0) := rfl
    rw [hred, if_pos (by omega : n ≠ 0)]
    unfold pageClamp
    rw [if_pos (by omega : n - 1 ≥ (initList actions).length)]
  · intro h1 hle
    have hred : listPageIndex (initList actions) (some n) =
        pageClamp (initList actions) (if n ≠ 0 then n - 1 else 0) := rfl
    rw [hred, if_pos (by omega : n ≠ 0)]
    unfold pageClamp
    rw [if_neg (by omega : ¬n - 1 ≥ (initList actions).length)]
  · intro hgt
    unfold listReply
    rw [if_pos hgt]

/-- Witness for C8: with one rule the listing has a single page, and a
requested page number far out of range clamps to it (index 0, shown as
page 1 of 1 would be, though a single page is rendered bare). -/
theorem list_pagination_properties_witness :
    listPageIndex (initList [Action.mk [Matcher.regex "hi"] none]) (some 7) =
      (initList [Action.mk [Matcher.regex "hi"] none]).length - 1 :=
  (list_pagination_properties [] [Action.mk [Matcher.regex "hi"] none]
    "." none 7).2.2.1 (by omega) (by decide)

/-- Result of reading and parsing a file (`fs::read_to_string` followed
by `toml::from_str`). -/
inductive ReadResult (α : Type) where
  | readErr
  | parseErr
  | ok (a : α)

mutual

/-- The include tree of an action file (struct `ActionFile`,
src/main.rs:59-72; the source field is named `include`). Each include
either fails to read or parse, or is another file. An include cycle is
not representable: the source has no cycle protection and diverges on
one, so only terminating executions are modelled. -/
inductive ActionFile where
  | mk (on_message : List ActionDefinition) (includes : IncludeList)

/-- List of include entries of an `ActionFile`. -/
inductive IncludeList where
  | nil
  | badCons (rest : IncludeList)
  | cons (f : ActionFile) (rest : IncludeList)

end

/-- `ChannelDefinition` (src/main.rs:74-79). -/
inductive ChannelDefinition where
  | id (v : Nat)
  | name (s : String)

/-- `Settings` (src/main.rs:81-132) with its serde defaults
(src/main.rs:162-185). The builtin command marker field is named
`prefix` in the source. -/
structure Settings where
  key_file : String := "private.key"
  dynamic_actions : String := "dynamic.toml"
  address : String := "localhost"
  channel : Option ChannelDefinition := none
  name : String := "SimpleBot"
  disconnect_message : String := "Disconnecting"
  cmdMarker : String := "."
  actions : ActionFile := ActionFile.mk [] IncludeList.nil

/-- The bot state relevant to rule loading (struct `Bot`,
src/main.rs:134-140); the logger and the path fields are I/O handles
outside the model. -/
structure Bot where
  actions : ActionList := []
  settings : Settings := {}

/-- The `on_message` conversion loop of `load_actions`
(src/main.rs:353-355): push each converted rule; the `?` on a conversion
failure stops with the rules pushed so far still in the list. -/
def loadDefs (compiles : CompileEnv) (defs : List ActionDefinition)
    (acc : List Action) : List Action × Option String :=
  match defs with
  | [] => (acc, none)
  | d :: rest =>
    match d.to_action compiles with
    | .ok a => loadDefs compiles rest (acc ++ [a])
    | .error e => (acc, some e)

mutual

/-- Embeds `load_actions` (src/main.rs:352-364): convert every
`on_message` definition in order, then recurse into the includes; the
first failure stops and is returned, the `actions` vector (threaded as
`acc`) keeping everything pushed so far, as the source mutates it in
place. -/
def load_actions (compiles : CompileEnv) (f : ActionFile)
    (acc : List Action) : List Action × Option String :=
  match f with
  | .mk defs includes =>
    match loadDefs compiles defs acc with
    | (acc2, some e) => (acc2, some e)
    | (acc2, none) => loadIncludes compiles includes acc2

/-- The include loop of `load_actions` (src/main.rs:357-361): a failing
read or parse of an include propagates as the error. -/
def loadIncludes (compiles : CompileEnv) (incs : IncludeList)
    (acc : List Action) : List Action × Option String :=
  match incs with
  | .nil => (acc, none)
  | .badCons _ => (acc, some "failed to read or parse include")
  | .cons f rest =>
    match load_actions compiles f acc with
    | (acc2, some e) => (acc2, some e)
    | (acc2, none) => loadIncludes compiles rest acc2

end

/-- `regex::escape` on strings. -/
def escapeStr (s : String) : String := String.mk (escapeChars s.data)

/-- The seven builtin rules in registration order, with the matcher
patterns built by `builtins::init` (src/builtins.rs:13-44) from the
escaped command marker; the callbacks (`cb`) perform I/O on the bot and
connection and are parameters of the model. -/
def builtinRules (cb : Fin 7 → Message → Option String) (marker : String) :
    List Action :=
  let p := escapeStr marker
  [Action.mk [Matcher.regex ("^" ++ p ++ "help")] (some (.function (cb 0))),
   Action.mk [Matcher.regex ("^" ++ p ++ "copy")] (some (.function (cb 1))),
   Action.mk [Matcher.regex ("^" ++ p ++ "list")] (some (.function (cb 2))),
   Action.mk [Matcher.regex ("^" ++ p ++ "add")] (some (.function (cb 3))),
   Action.mk [Matcher.regex ("^" ++ p ++ "del")] (some (.function (cb 4))),
   Action.mk [Matcher.regex ("^" ++ p ++ "reload$")] (some (.function (cb 5))),
   Action.mk [Matcher.regex ("^" ++ p ++ "quit$")] (some (.function (cb 6)))]

/-- Modelled from the spec: builtin registration during a (re)load.
`load_settings` (src/main.rs:328) calls a two-argument `builtins::init`
whose definition is not under src/ — src/builtins.rs:13 holds a
one-argument variant from a different revision that pushes into the
bot's live list, which the published list would then discard. Following
the spec's rebuild procedure (§4.5 step 3, "Re-register builtins into
the fresh RuleSet"), the builtins are appended to the rule set under
construction at the point of the call: after the static rules and
before the dynamic ones. The rules themselves are `builtinRules`, taken
from src/builtins.rs:13-44. -/
def builtinsInit (cb : Fin 7 → Message → Option String) (marker : String)
    (acc : List Action) : List Action :=
  acc ++ builtinRules cb marker

/-- The dynamic-actions phase of `load_settings` (src/main.rs:330-349):
`actions2` is the rule list built so far (static rules, then builtins),
`bot1` the bot after the settings phase. A missing dynamic file is the
empty store (the `Err` arm of the read, src/main.rs:339-342); a parse
failure bails with `?`; a conversion failure bails with the
`Failed to load dynamic actions` error; on success the fresh list is
published into `bot.actions` in a single assignment. -/
def loadDynamicPhase (compiles : CompileEnv)
    (dynamicFile : ReadResult ActionFile) (bot1 : Bot)
    (actions2 : List Action) : Bot × Option String :=
  match dynamicFile with
  | .parseErr => (bot1, some "Failed to parse dynamic actions")
  | .readErr =>
    match load_actions compiles (ActionFile.mk [] IncludeList.nil) actions2 with
    | (_, some e) => (bot1, some ("Failed to load dynamic actions: " ++ e))
    | (acts, none) => ({ bot1 with actions := acts }, none)
  | .ok d =>
    match load_actions compiles d actions2 with
    | (_, some e) => (bot1, some ("Failed to load dynamic actions: " ++ e))
    | (acts, none) => ({ bot1 with actions := acts }, none)

/-- Embeds `load_settings` (src/main.rs:304-350) as a state transformer
on the bot. The file system is the pair of read-and-parse outcomes for
the settings file and the dynamic-actions file; the returned `Option
String` is the error with which the source bails out (`none` for
`Ok(())`). A settings read failure only warns (the old settings stay); a
settings parse failure bails before anything changes; a static
`load_actions` failure is only logged and the partially filled list is
kept; builtins are then registered (see `builtinsInit`); the dynamic
phase follows. -/
def load_settings (cb : Fin 7 → Message → Option String)
    (compiles : CompileEnv) (settingsFile : ReadResult Settings)
    (dynamicFile : ReadResult ActionFile) (bot : Bot) : Bot × Option String :=
  match settingsFile with
  | .parseErr => (bot, some "Failed to parse settings")
  | .readErr =>
    loadDynamicPhase compiles dynamicFile bot
      (builtinsInit cb bot.settings.cmdMarker
        (load_actions compiles bot.settings.actions []).1)
  | .ok s =>
    loadDynamicPhase compiles dynamicFile { bot with settings := s }
      (builtinsInit cb s.cmdMarker (load_actions compiles s.actions []).1)

/-- The observable kind of a rule's reaction (the `function` payloads are
not comparable, their kind is). -/
inductive ReactionKind where
  | plain
  | command
  | shell
  | function
  | nothing
deriving Repr, DecidableEq

def reactionKind : Option Reaction → ReactionKind
  | none => .nothing
  | some (.plain _) => .plain
  | some (.command _) => .command
  | some (.shell _) => .shell
  | some (.function _) => .function

theorem loadDefs_cons_ok (compiles : CompileEnv) (d : ActionDefinition)
    (rest : List ActionDefinition) (a : Action) (acc : List Action)
    (h : d.to_action compiles = .ok a) :
    loadDefs compiles (d :: rest) acc = loadDefs compiles rest (acc ++ [a]) := by
  rw [loadDefs, h]

theorem loadDefs_cons_err (compiles : CompileEnv) (d : ActionDefinition)
    (rest : List ActionDefinition) (e : String) (acc : List Action)
    (h : d.to_action compiles = .error e) :
    loadDefs compiles (d :: rest) acc = (acc, some e) := by
  rw [loadDefs, h]

theorem loadDefs_acc (compiles : CompileEnv) (defs : List ActionDefinition)
    (acc : List Action) :
    loadDefs compiles defs acc =
      (acc ++ (loadDefs compiles defs []).1, (loadDefs compiles defs []).2) := by
  induction defs generalizing acc with
  | nil => simp [loadDefs]
  | cons d rest ih =>
    cases hda : d.to_action compiles with
    | error e =>
      rw [loadDefs_cons_err compiles d rest e acc hda,
        loadDefs_cons_err compiles d rest e [] hda]
      simp
    | ok a =>
      rw [loadDefs_cons_ok compiles d rest a acc hda,
        loadDefs_cons_ok compiles d rest a [] hda]
      rw [ih (acc ++ [a]), ih ([] ++ [a])]
      simp

mutual

theorem load_actions_acc (compiles : CompileEnv) :
    ∀ (f : ActionFile) (acc : List Action),
    load_actions compiles f acc =
      (acc ++ (load_actions compiles f []).1, (load_actions compiles f []).2)
  | .mk defs incs, acc => by
    rw [load_actions, load_actions]
    rw [loadDefs_acc compiles defs acc]
    cases hd : loadDefs compiles defs [] with
    | mk dacc derr =>
      cases derr with
      | some e => simp
      | none =>
        simp only
        rw [loadIncludes_acc compiles incs (acc ++ dacc),
          loadIncludes_acc compiles incs dacc]
        simp

theorem loadIncludes_acc (compiles : CompileEnv) :
    ∀ (incs : IncludeList) (acc : List Action),
    loadIncludes compiles incs acc =
      (acc ++ (loadIncludes compiles incs []).1, (loadIncludes compiles incs []).2)
  | .nil, acc => by simp [loadIncludes]
  | .badCons rest, acc => by simp [loadIncludes]
  | .cons f rest, acc => by
    rw [loadIncludes, loadIncludes]
    rw [load_actions_acc compiles f acc]
    cases hf : load_actions compiles f [] with
    | mk facc ferr =>
      cases ferr with
      | some e => simp
      | none =>
        simp only
        rw [loadIncludes_acc compiles rest (acc ++ facc),
          loadIncludes_acc compiles rest facc]
        simp

end

theorem load_actions_empty (compiles : CompileEnv) (acts : List Action) :
    load_actions compiles (ActionFile.mk [] IncludeList.nil) acts =
      (acts, none) := rfl

theorem loadDynamicPhase_ok_none (compiles : CompileEnv) (d : ActionFile)
    (bot1 : Bot) (actions2 acts : List Action)
    (h : load_actions compiles d actions2 = (acts, none)) :
    loadDynamicPhase compiles (.ok d) bot1 actions2 =
      ({ bot1 with actions := acts }, none) := by
  rw [loadDynamicPhase, h]

theorem loadDynamicPhase_ok_err (compiles : CompileEnv) (d : ActionFile)
    (bot1 : Bot) (actions2 acts : List Action) (e : String)
    (h : load_actions compiles d actions2 = (acts, some e)) :
    loadDynamicPhase compiles (.ok d) bot1 actions2 =
      (bot1, some ("Failed to load dynamic actions: " ++ e)) := by
  rw [loadDynamicPhase, h]

/-- What a load with readable settings and dynamic store publishes when
the dynamic rules all convert: the static prefix, the builtins, the
dynamic rules, in that order, with no error. -/
theorem load_settings_publish_eq (cb : Fin 7 → Message → Option String)
    (compiles : CompileEnv) (s : Settings) (d : ActionFile) (bot : Bot)
    (hdyn : (load_actions compiles d []).2 = none) :
    load_settings cb compiles (.ok s) (.ok d) bot =
      ({ bot with settings := s, actions :=
          (load_actions compiles s.actions []).1 ++
            builtinRules cb s.cmdMarker ++ (load_actions compiles d []).1 },
        none) := by
  have hacc := load_actions_acc compiles d
    (builtinsInit cb s.cmdMarker (load_actions compiles s.actions []).1)
  rw [hdyn] at hacc
  have hls : load_settings cb compiles (.ok s) (.ok d) bot =
      loadDynamicPhase compiles (.ok d) { bot with settings := s }
        (builtinsInit cb s.cmdMarker (load_actions compiles s.actions []).1) := by
    rw [load_settings]
  rw [hls, loadDynamicPhase_ok_none compiles d _ _ _ hacc]
  unfold builtinsInit
  rfl

/-- C2 (amended): every rule set published by a successful (re)load is
the static configuration-defined rules first (the prefix converted
before any static failure), then the seven builtin command rules, then
the dynamically-added rules last. Builtins therefore precede the
dynamic rules, so a dynamic rule with the same trigger text as a builtin
never shadows it — the builtin wins (deliberate per the comment at
src/main.rs:327: builtins are registered before the dynamic actions so
that `.del` keeps working). -/
theorem load_order_static_builtins_dynamic
    (cb : Fin 7 → Message → Option String) (compiles : CompileEnv)
    (s : Settings) (d : ActionFile) (bot : Bot)
    (hdyn : (load_actions compiles d []).2 = none) :
    (load_settings cb compiles (.ok s) (.ok d) bot).2 = none ∧
    (load_settings cb compiles (.ok s) (.ok d) bot).1.actions =
      (load_actions compiles s.actions []).1 ++ builtinRules cb s.cmdMarker ++
        (load_actions compiles d []).1 := by
  rw [load_settings_publish_eq cb compiles s d bot hdyn]
  exact ⟨rfl, rfl⟩

/-- Witness for C2 (amended) at empty static and dynamic stores. -/
theorem load_order_static_builtins_dynamic_witness :
    (load_settings (fun _ _ => none) (fun _ => true) (.ok {})
        (.ok (ActionFile.mk [] IncludeList.nil)) {}).1.actions =
      (load_actions (fun _ => true) ({} : Settings).actions []).1 ++
        builtinRules (fun _ _ => none) ({} : Settings).cmdMarker ++
        (load_actions (fun _ => true) (ActionFile.mk [] IncludeList.nil) []).1 :=
  (load_order_static_builtins_dynamic (fun _ _ => none) (fun _ => true) {}
    (ActionFile.mk [] IncludeList.nil) {} rfl).2

/-- Counterexample for C2 as stated: with no static rules and one dynamic
rule, the published rule set is the seven builtins followed by the
dynamic rule — the builtin command rules are not last, and the dynamic
rule follows (so never precedes or shadows) the builtins. -/
theorem builtins_not_last_counterexample :
    ((load_settings (fun _ _ => none) (fun _ => true) (.ok {})
        (.ok (ActionFile.mk
          [ActionDefinition.mk (some "hello") none none (some "world") none none]
          IncludeList.nil)) {}).1.actions.map
        (fun a => reactionKind a.reaction) =
      [.function, .function, .function, .function, .function, .function,
        .function, .plain]) ∧
    ((load_settings (fun _ _ => none) (fun _ => true) (.ok {})
        (.ok (ActionFile.mk
          [ActionDefinition.mk (some "hello") none none (some "world") none none]
          IncludeList.nil)) {}).1.actions.map
        (fun a => reactionKind a.reaction)).getLast? ≠
      some ReactionKind.function := by
  exact ⟨by decide, by decide⟩

/-- C3 (amended): a settings parse failure, a dynamic-store parse
failure, or a dynamic rule that fails to convert aborts the reload with
an error, the previously active rule set retained unchanged; but a
failure while loading the static rule definitions does not abort — it is
only logged, and the reload proceeds, publishing the partially loaded
static prefix followed by the builtins and the dynamic rules. -/
theorem reload_failure_handling (cb : Fin 7 → Message → Option String)
    (compiles : CompileEnv) (s : Settings) (d : ActionFile) (bot : Bot) :
    ((load_settings cb compiles .parseErr (.ok d) bot).1.actions =
        bot.actions ∧
      (load_settings cb compiles .parseErr (.ok d) bot).2.isSome = true) ∧
    ((load_settings cb compiles (.ok s) .parseErr bot).1.actions =
        bot.actions ∧
      (load_settings cb compiles (.ok s) .parseErr bot).2.isSome = true) ∧
    (∀ e, (load_actions compiles d []).2 = some e →
      (load_settings cb compiles (.ok s) (.ok d) bot).1.actions =
        bot.actions ∧
      (load_settings cb compiles (.ok s) (.ok d) bot).2.isSome = true) ∧
    ((load_actions compiles s.actions []).2.isSome = true →
      (load_actions compiles d []).2 = none →
      (load_settings cb compiles (.ok s) (.ok d) bot).2 = none ∧
      (load_settings cb compiles (.ok s) (.ok d) bot).1.actions =
        (load_actions compiles s.actions []).1 ++
          builtinRules cb s.cmdMarker ++ (load_actions compiles d []).1) := by
  refine ⟨⟨rfl, rfl⟩, ⟨rfl, rfl⟩, ?_, ?_⟩
  · intro e he
    have hacc := load_actions_acc compiles d
      (builtinsInit cb s.cmdMarker (load_actions compiles s.actions []).1)
    rw [he] at hacc
    have hls : load_settings cb compiles (.ok s) (.ok d) bot =
        loadDynamicPhase compiles (.ok d) { bot with settings := s }
          (builtinsInit cb s.cmdMarker (load_actions compiles s.actions []).1) := by
      rw [load_settings]
    rw [hls, loadDynamicPhase_ok_err compiles d _ _ _ _ hacc]
    exact ⟨rfl, rfl⟩
  · intro hst hdyn
    rw [load_settings_publish_eq cb compiles s d bot hdyn]
    exact ⟨rfl, rfl⟩

/-- Witness for C3 (amended): a dynamic store whose single rule carries
both `contains` and `regex` aborts the reload, keeping the previous
single-rule set. -/
theorem reload_failure_handling_witness :
    (load_settings (fun _ _ => none) (fun _ => true) (.ok {})
        (.ok (ActionFile.mk
          [ActionDefinition.mk (some "x") (some "y") none none none none]
          IncludeList.nil))
        (Bot.mk [Action.mk [] (some (.plain "old"))] {})).1.actions.map
      (fun a => reactionKind a.reaction) = [.plain] := by
  have h := (reload_failure_handling (fun _ _ => none) (fun _ => true) {}
    (ActionFile.mk
      [ActionDefinition.mk (some "x") (some "y") none none none none]
      IncludeList.nil)
    (Bot.mk [Action.mk [] (some (.plain "old"))] {})).2.2.1
    "An action can only have either contains or matches." (by decide)
  rw [h.1]
  decide

/-- A static action file whose second definition fails to convert (it
sets both `contains` and `regex`). -/
def staticBadFile : ActionFile :=
  ActionFile.mk
    [ActionDefinition.mk none none none (some "ok") none none,
     ActionDefinition.mk (some "x") (some "y") none none none none]
    IncludeList.nil

/-- Settings carrying `staticBadFile` as the static rules. -/
def staticBadSettings : Settings :=
  { actions := staticBadFile }

/-- A bot holding one previously active (command) rule. -/
def prevBot : Bot :=
  Bot.mk [Action.mk [] (some (.command "old"))] {}

/-- Counterexample for C3 as stated: a static definition that fails to
convert (both `contains` and `regex` set) does not abort the reload —
the reload returns no error, publishing the partial static prefix (the
one good rule) plus the builtins, and the previously active rule set
(one command rule) is replaced, not retained. -/
theorem reload_static_failure_counterexample :
    ((load_actions (fun _ => true) staticBadFile []).2.isSome = true) ∧
    ((load_settings (fun _ _ => none) (fun _ => true) (.ok staticBadSettings)
        .readErr prevBot).2 = none) ∧
    ((load_settings (fun _ _ => none) (fun _ => true) (.ok staticBadSettings)
        .readErr prevBot).1.actions.map (fun a => reactionKind a.reaction) =
      [.plain, .function, .function, .function, .function, .function,
        .function, .function]) ∧
    (prevBot.actions.map (fun a => reactionKind a.reaction) = [.command]) := by
  exact ⟨by decide, by decide, by decide, by decide⟩

/-- Modelled from the spec: the rate limiter (spec sections 2, 3 and
4.4) is not part of the sources under src/ — `handle_event`
(src/main.rs:422-463) is a revision of the event path without it. Its
state per the spec's data model: a window duration, the allowed number
of events, and the recent event instants. -/
structure RateLimiter where
  window : Nat
  maxEvents : Nat
  timestamps : List Nat

/-- Modelled from the spec: prune timestamps older than the sliding
window before each check. -/
def RateLimiter.prune (rl : RateLimiter) (now : Nat) : List Nat :=
  rl.timestamps.filter (fun ts => now - ts < rl.window)

/-- Modelled from the spec: the rate-limited event path — prune, then
evaluate the rule set iff fewer than `maxEvents` timestamps remain in
the window, recording `now` only when a successful (non-empty,
conclusive) reply is produced; rate-limited messages are dropped with no
reply. -/
def gatedHandle (re : RegexEnv) (env : ProcEnv) (msg : Message)
    (rules : ActionList) (rl : RateLimiter) (now : Nat) :
    Option String × RateLimiter :=
  let ts := rl.prune now
  if ts.length < rl.maxEvents then
    match ActionList.handle re env msg rules with
    | some r => (some r, { rl with timestamps := now :: ts })
    | none => (none, { rl with timestamps := ts })
  else (none, { rl with timestamps := ts })

/-- The gated event path run over a sequence of message instants,
collecting the replies. -/
def runGated (re : RegexEnv) (env : ProcEnv) (msg : Message)
    (rules : ActionList) : RateLimiter → List Nat → List (Option String) × RateLimiter
  | rl, [] => ([], rl)
  | rl, t :: ts =>
    let r := gatedHandle re env msg rules rl t
    let rest := runGated re env msg rules r.2 ts
    (r.1 :: rest.1, rest.2)

theorem runGated_spec (re : RegexEnv) (env : ProcEnv) (msg : Message)
    (rules : ActionList) (r : String) (w N : Nat)
    (hhandle : ActionList.handle re env msg rules = some r) :
    ∀ (times : List Nat) (S : List Nat),
    (∀ s ∈ S, ∀ t ∈ times, t - s < w) →
    List.Pairwise (fun a b => b - a < w) times →
    (runGated re env msg rules ⟨w, N, S⟩ times).1 =
      (List.range times.length).map
        (fun j => if S.length + j < N then some r else none) := by
  intro times
  induction times with
  | nil => intro S hS hp; rfl
  | cons t ts ih =>
    intro S hS hp
    have hprune : RateLimiter.prune ⟨w, N, S⟩ t = S := by
      unfold RateLimiter.prune
      exact List.filter_eq_self.mpr
        (fun s hs => by
          simp only [decide_eq_true_eq]
          exact hS s hs t (by simp))
    rw [runGated]
    have hp2 := (List.pairwise_cons.mp hp).2
    have ht2 := (List.pairwise_cons.mp hp).1
    by_cases hlt : S.length < N
    · have hg : gatedHandle re env msg rules ⟨w, N, S⟩ t =
          (some r, ⟨w, N, t :: S⟩) := by
        unfold gatedHandle
        rw [hprune]
        rw [if_pos hlt, hhandle]
      rw [hg]
      have hS2 : ∀ s ∈ t :: S, ∀ u ∈ ts, u - s < w := by
        intro s hs u hu
        rcases List.mem_cons.mp hs with rfl | hs2
        · exact ht2 u hu
        · exact hS s hs2 u (by simp [hu])
      rw [ih (t :: S) hS2 hp2]
      simp only [List.length_cons, List.length_map, List.range_succ_eq_map,
        List.map_cons, List.map_map]
      rw [if_pos (by omega : S.length + 0 < N)]
      congr 1
      apply List.map_congr_left
      intro j hj
      simp only [Function.comp]
      by_cases hc : S.length + 1 + j < N
      · rw [if_pos hc, if_pos (by omega : S.length + j.succ < N)]
      · rw [if_neg hc, if_neg (by omega : ¬S.length + j.succ < N)]
    · have hg : gatedHandle re env msg rules ⟨w, N, S⟩ t =
          (none, ⟨w, N, S⟩) := by
        unfold gatedHandle
        rw [hprune]
        rw [if_neg hlt]
      rw [hg]
      have hS2 : ∀ s ∈ S, ∀ u ∈ ts, u - s < w := by
        intro s hs u hu
        exact hS s hs u (by simp [hu])
      rw [ih S hS2 hp2]
      simp only [List.length_cons, List.range_succ_eq_map, List.map_cons,
        List.map_map]
      rw [if_neg (by omega : ¬S.length + 0 < N)]
      congr 1
      apply List.map_congr_left
      intro j hj
      simp only [Function.comp]
      rw [if_neg (by omega), if_neg (by omega)]

/-- C6: every incoming message passes the rate-limiter gate before rule
evaluation — timestamps older than the window are pruned, the message is
evaluated iff fewer than `maxEvents` remain, and the time is recorded
only when a successful (non-empty, conclusive) reply is produced; over a
run of matched messages inside one window starting from an idle limiter,
exactly the first `maxEvents` get replies and every later one (in
particular the `(N+1)`-th) gets none. -/
theorem rate_limiter_gate (re : RegexEnv) (env : ProcEnv) (msg : Message)
    (rules : ActionList) (r : String) (w N : Nat) (times : List Nat)
    (rl : RateLimiter) (now : Nat) :
    (((rl.prune now).length ≥ rl.maxEvents →
      gatedHandle re env msg rules rl now =
        (none, { rl with timestamps := rl.prune now })) ∧
     ((rl.prune now).length < rl.maxEvents →
      ActionList.handle re env msg rules = none →
      gatedHandle re env msg rules rl now =
        (none, { rl with timestamps := rl.prune now })) ∧
     ((rl.prune now).length < rl.maxEvents →
      ActionList.handle re env msg rules = some r →
      gatedHandle re env msg rules rl now =
        (some r, { rl with timestamps := now :: rl.prune now }))) ∧
    (ActionList.handle re env msg rules = some r →
     List.Pairwise (fun a b => b - a < w) times →
     (runGated re env msg rules ⟨w, N, []⟩ times).1 =
       (List.range times.length).map
         (fun j => if j < N then some r else none)) := by
  constructor
  · refine ⟨?_, ?_, ?_⟩
    · intro hge
      unfold gatedHandle
      rw [if_neg (by omega)]
    · intro hlt hh
      unfold gatedHandle
      rw [if_pos hlt, hh]
    · intro hlt hh
      unfold gatedHandle
      rw [if_pos hlt, hh]
  · intro hh hp
    have := runGated_spec re env msg rules r w N hh times []
      (by intro s hs; exact absurd hs (by simp)) hp
    simpa using this

/-- Witness for C6: with `maxEvents = 1` and two matched messages at the
same instant (inside one window), the first gets the reply and the
second — the `(N+1)`-th — gets none. -/
theorem rate_limiter_gate_witness :
    (runGated (fun _ _ => true) (fun _ _ _ => .spawnErr)
      ⟨.server, ⟨"name", none⟩, "hi"⟩
      [Action.mk [] (some (.plain "hey"))] ⟨10, 1, []⟩ [0, 0]).1 =
      [some "hey", none] := by
  rw [(rate_limiter_gate (fun _ _ => true) (fun _ _ _ => .spawnErr)
      ⟨.server, ⟨"name", none⟩, "hi"⟩
      [Action.mk [] (some (.plain "hey"))] "hey" 10 1 [0, 0] ⟨10, 1, []⟩ 0).2
      (by decide) (by decide)]
  decide

end SimpleBot
